import Mathlib

/-!
Shallow embedding of the caching layer of the datavault repository
(src/dev/backend/utils/caching): configuration and path computation
(config.py), the filesystem storage backend (storage.py), and the cache
service orchestrator with its in-memory cache, domain blocking, image
fetching and response rewriting (cache_service.py), together with the
standalone DomainBlocker class.

Modelling conventions:
* Python dicts become association lists in insertion order with unique
  keys (assignment replaces in place, new keys are appended, pop removes).
* Filesystem paths become lists of path segments, mirroring pathlib
  components.
* hashlib.md5 hexdigest, urllib.parse netloc extraction and base64
  encoding are opaque library functions; they are passed as function
  parameters (named h, gd and b64 below) so theorems quantify over them.
* Disk and network effects are made explicit: functions return, next to
  their result, the list of primitive operations (Op) they performed.
  Whether a disk write succeeds is an explicit boolean input writeOk,
  and network responses come from an explicit oracle.
* Raised exceptions become Except or Option results; an except-clause
  that swallows the exception produces a normal result.
* The event loop is single threaded and every await point is serialized,
  so async functions are modelled as sequential state transformers.
-/

namespace DataVault

section Dict

variable {κ V : Type} [DecidableEq κ]

/-- Membership test and lookup in an association list modelling a Python dict. -/
def lookupKV (k : κ) : List (κ × V) → Option V
  | [] => none
  | (k', v) :: rest => if k' = k then some v else lookupKV k rest

/-- Python dict assignment: replace the value in place when the key is present,
otherwise append, preserving dict insertion order for iteration. -/
def insertKV (k : κ) (v : V) : List (κ × V) → List (κ × V)
  | [] => [(k, v)]
  | (k', v') :: rest => if k' = k then (k, v) :: rest else (k', v') :: insertKV k v rest

/-- Python dict pop of a key. -/
def eraseKV (k : κ) : List (κ × V) → List (κ × V)
  | [] => []
  | (k', v') :: rest => if k' = k then rest else (k', v') :: eraseKV k rest

end Dict

/-- A filesystem path as its pathlib components. -/
abbrev DirPath := List String

/-- Primitive disk and network operations performed by the code, recorded so
that theorems can state which effects an operation does or does not have. -/
inductive Op where
  | mkdirParents (dir : DirPath)
  | statExists (path : DirPath)
  | openRead (path : DirPath)
  | openWrite (path : DirPath)
  | rename (src dst : DirPath)
  | netGet (url : String)
  | sleep (seconds : Nat)
  deriving DecidableEq

/-- Whether an operation is a rename. -/
def Op.isRename : Op → Bool
  | .rename _ _ => true
  | _ => false

/-- Whether an operation is a network request. -/
def Op.isNetGet : Op → Bool
  | .netGet _ => true
  | _ => false

/-- CacheConfig from config.py (compression fields are unused by the
modelled code paths and omitted). -/
structure CacheConfig where
  base_dir : String
  max_age_hours : Nat := 24
  cleanup_days : Nat := 7

/-- get_cache_path from config.py: computes base_dir/cache_type and performs
mkdir(parents=True, exist_ok=True) on every call, including calls made on
the read path. -/
def CacheConfig.get_cache_path (c : CacheConfig) (cache_type : String) :
    DirPath × List Op :=
  ([c.base_dir, cache_type], [Op.mkdirParents [c.base_dir, cache_type]])

/-- The single file path base_dir/cache_type/key.json used by
FileSystemStorage for the given key. -/
def entryPath (c : CacheConfig) (cache_type : String) (key : String) : DirPath :=
  [c.base_dir, cache_type, key ++ ".json"]

/-- FileSystemStorage.read from storage.py: one existence check of the single
undated path base_dir/cache_type/key.json, reading it when present.
Read errors and malformed payloads degrade to a miss via the except clause;
the filesystem is modelled as a map from paths to already-parsed payloads. -/
def FileSystemStorage.read {V : Type} (config : CacheConfig) (fs : List (DirPath × V))
    (key : String) (cache_type : String) : Option V × List Op :=
  let dirops := config.get_cache_path cache_type
  let path := dirops.1 ++ [key ++ ".json"]
  match lookupKV path fs with
  | some v => (some v, dirops.2 ++ [Op.statExists path, Op.openRead path])
  | none => (none, dirops.2 ++ [Op.statExists path])

/-- FileSystemStorage.write from storage.py: computes the same single path,
performs the mkdir of get_cache_path plus the redundant
cache_path.parent.mkdir, then opens the final path directly for writing.
A failing disk write is re-raised to the caller (Except.error). -/
def FileSystemStorage.write {V : Type} (config : CacheConfig) (writeOk : Bool)
    (fs : List (DirPath × V)) (key : String) (data : V) (cache_type : String) :
    Except Unit (List (DirPath × V)) × List Op :=
  let dirops := config.get_cache_path cache_type
  let path := dirops.1 ++ [key ++ ".json"]
  let ops := dirops.2 ++ [Op.mkdirParents dirops.1, Op.openWrite path]
  if writeOk then (Except.ok (insertKV path data fs), ops)
  else (Except.error (), ops)

/-- The mutable state owned by a CacheService instance: the memory cache and
its (separately maintained) timestamp dict, the blocked-domain set, and the
persistent filesystem contents. -/
structure ServiceState (V : Type) where
  memCache : List (String × V)
  memTimestamps : List (String × Nat)
  blockedDomains : List String
  fs : List (DirPath × V)
  deriving DecidableEq

/-- memory_cache_size set in CacheService.__init__. -/
def memory_cache_size : Nat := 100

/-- memory_cache_ttl set in CacheService.__init__ (seconds). -/
def memory_cache_ttl : Nat := 3600

/-- max_retries set in CacheService._initialize. -/
def max_retries : Nat := 3

/-- max_image_size set in CacheService._initialize (bytes). -/
def max_image_size : Nat := 10 * 1024 * 1024

/-- CacheService.get: hash the key, try the memory cache (no TTL check, no
category check), else try the persistent store at the single undated path,
promoting a hit into the memory cache. Never raises: errors degrade to a
miss. The hash function h models hashlib.md5 hexdigest. -/
def CacheService.get {V : Type} (h : String → String) (config : CacheConfig)
    (st : ServiceState V) (key : String) (cache_type : String) :
    Option V × ServiceState V × List Op :=
  let cache_key := h key
  match lookupKV cache_key st.memCache with
  | some v => (some v, st, [])
  | none =>
    match FileSystemStorage.read config st.fs cache_key cache_type with
    | (some v, ops) => (some v, { st with memCache := insertKV cache_key v st.memCache }, ops)
    | (none, ops) => (none, st, ops)

/-- CacheService.set: hash the key; if the digest is already a memory-cache
key, return immediately (deduplication on key presence only, the stored
value is not compared); otherwise insert into the memory cache, then write
through to the persistent store.  The surrounding try/except swallows a
storage failure, so the caller always receives a normal return, and the
memory-cache insertion performed before the failing write persists.
set never touches memTimestamps. -/
def CacheService.set {V : Type} (h : String → String) (config : CacheConfig)
    (writeOk : Bool) (st : ServiceState V) (key : String) (data : V)
    (cache_type : String) : Except String Unit × ServiceState V × List Op :=
  let cache_key := h key
  if (lookupKV cache_key st.memCache).isSome then (Except.ok (), st, [])
  else
    let st1 := { st with memCache := insertKV cache_key data st.memCache }
    match FileSystemStorage.write config writeOk st1.fs cache_key data cache_type with
    | (Except.ok fs', ops) => (Except.ok (), { st1 with fs := fs' }, ops)
    | (Except.error _, ops) => (Except.ok (), st1, ops)

/-- The keys of memTimestamps whose age exceeds the TTL, computed by
_manage_memory_cache as its expired_keys list.  The Python comparison is
current_time - timestamp greater than ttl on non-negative clock values,
matching truncated Nat subtraction. -/
def expiredKeys (current_time : Nat) (ts : List (String × Nat)) : List String :=
  (ts.filter (fun p => memory_cache_ttl < current_time - p.2)).map Prod.fst

/-- Phase one of _manage_memory_cache: pop every expired key from both the
memory cache and the timestamp dict. -/
def removeExpired {V : Type} (current_time : Nat) (st : ServiceState V) : ServiceState V :=
  let ek := expiredKeys current_time st.memTimestamps
  { st with
      memCache := ek.foldl (fun m k => eraseKV k m) st.memCache,
      memTimestamps := ek.foldl (fun m k => eraseKV k m) st.memTimestamps }

/-- Python min over the timestamp dict keys keyed by timestamp: the first key
in iteration order attaining the minimal timestamp. -/
def oldestKey : List (String × Nat) → Option (String × Nat)
  | [] => none
  | p :: rest =>
    match oldestKey rest with
    | none => some p
    | some q => if q.2 < p.2 then some q else some p

/-- Phase two of _manage_memory_cache: while the memory cache is over
capacity, pop the oldest timestamped key from both dicts.  none models the
ValueError that Python min raises on an empty timestamp dict (and fuel
exhaustion, which is unreachable when the function is entered with fuel
exceeding the number of timestamp entries, since each iteration removes
one). -/
def evictOldest {V : Type} :
    Nat → List (String × V) → List (String × Nat) →
    Option (List (String × V) × List (String × Nat))
  | 0, _, _ => none
  | fuel + 1, mem, ts =>
    if memory_cache_size < mem.length then
      match oldestKey ts with
      | none => none
      | some p => evictOldest fuel (eraseKV p.1 mem) (eraseKV p.1 ts)
    else some (mem, ts)

/-- CacheService._manage_memory_cache: remove expired entries first, then
evict oldest-by-timestamp entries while over capacity.  No caller of this
method exists in the repository, and CacheService.set never records a
timestamp, but the routine itself is modelled faithfully.  none models an
uncaught ValueError. -/
def manage_memory_cache {V : Type} (current_time : Nat) (st : ServiceState V) :
    Option (ServiceState V) :=
  let st1 := removeExpired current_time st
  match evictOldest (st1.memTimestamps.length + 1) st1.memCache st1.memTimestamps with
  | some p => some { st1 with memCache := p.1, memTimestamps := p.2 }
  | none => none

/-- CacheService._is_domain_blocked: membership of the extracted domain in
the blocked_domains set.  gd models _get_domain, i.e. urllib.parse netloc
extraction plus lowercasing. -/
def is_domain_blocked {V : Type} (gd : String → String) (st : ServiceState V)
    (url : String) : Bool :=
  st.blockedDomains.contains (gd url)

/-- CacheService._handle_error_response: add the domain to blocked_domains
when the status is 403, 404 or 429.  A single such status blocks the domain,
and nothing in the repository ever removes a domain from the set.  No caller
of this method exists in the repository. -/
def handle_error_response {V : Type} (gd : String → String) (st : ServiceState V)
    (url : String) (status : Nat) : ServiceState V :=
  if status = 403 ∨ status = 404 ∨ status = 429 then
    { st with blockedDomains :=
        if st.blockedDomains.contains (gd url) then st.blockedDomains
        else gd url :: st.blockedDomains }
  else st

/-- One article of a cached search response; only the urlToImage field is
read or written by the modelled code. -/
structure Article where
  urlToImage : Option String
  deriving DecidableEq

/-- A search response; the code only touches its articles list (a response
without an articles key behaves like one with an empty list). -/
structure Response where
  articles : List Article
  deriving DecidableEq

/-- A value held by the cache layers: search responses are dicts, cached
images are data-URI strings. -/
inductive CacheVal where
  | str (s : String)
  | resp (r : Response)
  deriving DecidableEq

/-- Python truthiness of a cached value: the empty string is falsy; a cached
response dict is non-empty, hence truthy. -/
def CacheVal.truthy : CacheVal → Bool
  | .str s => if s = "" then false else true
  | .resp _ => true

/-- Outcome of one aiohttp get, supplied by an oracle: an HTTP response with
status, content-type, optional truthy content-length header and body, or a
raised exception (timeouts included for cache_image_async, which catches
both alike). -/
inductive NetResult where
  | response (status : Nat) (contentType : String) (declaredLen : Option Nat) (body : String)
  | exc
  deriving DecidableEq

/-- The cheap content-length header check against max_image_size. -/
def headerTooLarge (decl : Option Nat) : Bool :=
  match decl with
  | some n => decide (max_image_size < n)
  | none => false

/-- The body of the try block of cache_image_async after the cache check: one
network request; any non-200 status, oversize payload or exception falls
back to the original url; on success the body is re-encoded as a data URI
(b64 models base64 encoding), cached under the images category, and
returned. -/
def cache_image_fetch (h gd b64 : String → String) (config : CacheConfig)
    (writeOk : Bool) (net : String → NetResult) (st : ServiceState CacheVal)
    (image_url : String) (ops0 : List Op) :
    CacheVal × ServiceState CacheVal × List Op :=
  let ops := ops0 ++ [Op.netGet image_url]
  match net image_url with
  | NetResult.exc => (CacheVal.str image_url, st, ops)
  | NetResult.response status ct decl body =>
    if status ≠ 200 then (CacheVal.str image_url, st, ops)
    else if headerTooLarge decl then (CacheVal.str image_url, st, ops)
    else if max_image_size < body.length then (CacheVal.str image_url, st, ops)
    else
      let data_uri := "data:" ++ ct ++ ";base64," ++ b64 body
      let setres := CacheService.set h config writeOk st image_url (CacheVal.str data_uri) "images"
      (CacheVal.str data_uri, setres.2.1, ops ++ setres.2.2)

/-- CacheService.cache_image_async: a blocked domain short-circuits to the
original url with no network attempt; otherwise, under the per-url lock,
return any truthy cached value, else perform the fetch.  Note that no
branch of this function records a failure or touches blocked_domains. -/
def cache_image_async (h gd b64 : String → String) (config : CacheConfig)
    (writeOk : Bool) (net : String → NetResult) (st : ServiceState CacheVal)
    (image_url : String) : CacheVal × ServiceState CacheVal × List Op :=
  if is_domain_blocked gd st image_url then (CacheVal.str image_url, st, [])
  else
    match CacheService.get h config st image_url "images" with
    | (some cached, st1, ops1) =>
      if cached.truthy then (cached, st1, ops1)
      else cache_image_fetch h gd b64 config writeOk net st1 image_url ops1
    | (none, st1, ops1) => cache_image_fetch h gd b64 config writeOk net st1 image_url ops1

/-- The image urls collected once, before batching, from the response
articles; a missing or empty (falsy) urlToImage is skipped. -/
def imageUrls (r : Response) : List String :=
  r.articles.filterMap (fun a =>
    match a.urlToImage with
    | some u => if u = "" then none else some u
    | none => none)

/-- Python str.startswith for the fixed literal data: used by the rewrite
loop, expressed as a prefix test on the character list of the string. -/
def startsWithData (s : String) : Bool :=
  "data:".data.isPrefixOf s.data

/-- The per-result rewrite step of cache_response_async: when a result is a
string starting with data:, set every article currently referencing the
processed url to it. -/
def rewriteWith (url : String) (result : CacheVal) (arts : List Article) : List Article :=
  match result with
  | CacheVal.str s =>
    if startsWithData s then
      arts.map (fun a => if a.urlToImage = some url then { a with urlToImage := some s } else a)
    else arts
  | CacheVal.resp _ => arts

/-- The rewrite loop over one batch zipped with its gather results. -/
def rewriteBatch (batch : List String) (results : List CacheVal)
    (arts : List Article) : List Article :=
  (batch.zip results).foldl (fun acc p => rewriteWith p.1 p.2 acc) arts

/-- One asyncio.gather over a batch of cache_image_async calls.  The event
loop is single threaded, every mutation happens between award points inside
the per-url lock, and distinct urls use distinct cache keys, so the model
fixes the schedule that runs the batch elements to completion from left to
right; the list of results matches the order of the batch as zip does in the
source. -/
def runBatch (h gd b64 : String → String) (config : CacheConfig) (writeOk : Bool)
    (net : String → NetResult) (st : ServiceState CacheVal) :
    List String → List CacheVal × ServiceState CacheVal × List Op
  | [] => ([], st, [])
  | u :: rest =>
    let r := cache_image_async h gd b64 config writeOk net st u
    let rs := runBatch h gd b64 config writeOk net r.2.1 rest
    (r.1 :: rs.1, rs.2.1, r.2.2 ++ rs.2.2)

/-- batch_size used by cache_response_async. -/
def batch_size : Nat := 20

/-- Slicing a list into chunks of n, with explicit fuel (any fuel of at
least the list length gives the full chunking when n is positive). -/
def chunksGo {α : Type} (n : Nat) : Nat → List α → List (List α)
  | 0, _ => []
  | _, [] => []
  | fuel + 1, a :: rest => (a :: rest).take n :: chunksGo n fuel ((a :: rest).drop n)

/-- The batch loop of cache_response_async: gather a batch, rewrite the
articles from its results, continue with the next batch. -/
def processBatches (h gd b64 : String → String) (config : CacheConfig)
    (writeOk : Bool) (net : String → NetResult) (st : ServiceState CacheVal)
    (response : Response) :
    List (List String) → Response × ServiceState CacheVal × List Op
  | [] => (response, st, [])
  | batch :: rest =>
    let r := runBatch h gd b64 config writeOk net st batch
    let response' := Response.mk (rewriteBatch batch r.1 response.articles)
    let rr := processBatches h gd b64 config writeOk net r.2.1 response' rest
    (rr.1, rr.2.1, r.2.2 ++ rr.2.2)

/-- CacheService.cache_response_async: cache the response under the md5 of
the query (CacheService.set hashes its key argument again), process the
image urls in batches of batch_size, rewriting successfully cached
references in place, then re-set the rewritten response (a no-op of both
layers, since set deduplicates on the present key; in Python the memory
cache aliases the mutated dict, while this value model keeps the snapshot
taken at insertion - no claim below concerns the stored payload).  The
surrounding try/except means the operation always returns normally; the
returned Response is the final value of the response object. -/
def cache_response_async (h gd b64 : String → String) (config : CacheConfig)
    (writeOk : Bool) (net : String → NetResult) (st : ServiceState CacheVal)
    (query : String) (response : Response) :
    Response × ServiceState CacheVal × List Op :=
  let key := h query
  let s1 := CacheService.set h config writeOk st key (CacheVal.resp response) "search"
  let urls := imageUrls response
  let pb := processBatches h gd b64 config writeOk net s1.2.1 response
    (chunksGo batch_size urls.length urls)
  let s2 := CacheService.set h config writeOk pb.2.1 key (CacheVal.resp pb.1) "search"
  (pb.1, s2.2.1, s1.2.2 ++ pb.2.2 ++ s2.2.2)

/-- Outcome of one attempt inside fetch_image_with_retry, supplied by an
oracle indexed by the retries counter: an HTTP response (a non-200 status
raises ClientError into the generic except branch), a timeout, or another
exception.  In the repository as shipped every attempt in fact raises
AttributeError, because the session construction reads self.timeout, an
attribute never assigned anywhere. -/
inductive FetchTry where
  | response (status : Nat) (declaredLen : Option Nat) (body : String)
  | timeout
  | exc
  deriving DecidableEq

/-- CacheService.fetch_image_with_retry, fuel-indexed: on timeout or any
exception, sleep 1 * (retries + 1) seconds (the adjacent code comment says
exponential backoff; the formula is linear) and recurse with retries + 1
while retries is below max_retries, else give up returning None; an
oversize declared or actual payload returns None with no retry; success
returns the raw bytes.  No branch records a domain failure and no branch
returns the original url.  Entered with fuel above max_retries minus
retries, the fuel-0 case is unreachable. -/
def fetch_image_with_retry (attempt : Nat → FetchTry) (url : String) :
    Nat → Nat → Option String × List Op
  | 0, _ => (none, [])
  | fuel + 1, retries =>
    match attempt retries with
    | FetchTry.response status decl body =>
      if status ≠ 200 then
        if retries < max_retries then
          let rest := fetch_image_with_retry attempt url fuel (retries + 1)
          (rest.1, Op.netGet url :: Op.sleep (1 * (retries + 1)) :: rest.2)
        else (none, [Op.netGet url])
      else if headerTooLarge decl then (none, [Op.netGet url])
      else if max_image_size < body.length then (none, [Op.netGet url])
      else (some body, [Op.netGet url])
    | FetchTry.timeout =>
      if retries < max_retries then
        let rest := fetch_image_with_retry attempt url fuel (retries + 1)
        (rest.1, Op.netGet url :: Op.sleep (1 * (retries + 1)) :: rest.2)
      else (none, [Op.netGet url])
    | FetchTry.exc =>
      if retries < max_retries then
        let rest := fetch_image_with_retry attempt url fuel (retries + 1)
        (rest.1, Op.netGet url :: Op.sleep (1 * (retries + 1)) :: rest.2)
      else (none, [Op.netGet url])

/-- fetch_image_with_retry as called, with retries starting at 0 and enough
fuel for every reachable frame. -/
def fetch_image (attempt : Nat → FetchTry) (url : String) : Option String × List Op :=
  fetch_image_with_retry attempt url (max_retries + 1) 0

/-- The sleep durations recorded in an operation list, in order. -/
def sleepsOf (ops : List Op) : List Nat :=
  ops.filterMap (fun op =>
    match op with
    | Op.sleep s => some s
    | _ => none)

/-- The DomainBlocker class at the bottom of cache_service.py.  It is
instantiated nowhere in the repository; CacheService uses its own
blocked_domains set instead. -/
structure DomainBlocker where
  blocked : List (String × Nat × Nat)
  threshold : Nat := 3
  block_duration : Nat := 3600

/-- DomainBlocker.should_block: an unknown domain is not blocked; a record
older than block_duration is deleted (lazy expiry) and reports unblocked;
otherwise blocked exactly when the failure count reached the threshold. -/
def DomainBlocker.should_block (db : DomainBlocker) (now : Nat) (domain : String) :
    Bool × DomainBlocker :=
  match lookupKV domain db.blocked with
  | none => (false, db)
  | some p =>
    if db.block_duration < now - p.1 then
      (false, { db with blocked := eraseKV domain db.blocked })
    else (decide (db.threshold ≤ p.2), db)

/-- DomainBlocker.record_failure: refresh the timestamp and increment the
count, starting at one. -/
def DomainBlocker.record_failure (db : DomainBlocker) (now : Nat) (domain : String) :
    DomainBlocker :=
  match lookupKV domain db.blocked with
  | some p => { db with blocked := insertKV domain (now, p.2 + 1) db.blocked }
  | none => { db with blocked := insertKV domain (now, 1) db.blocked }

/-- A concrete configuration used by the concrete evaluations below. -/
def cfg : CacheConfig := { base_dir := "cache" }

/-- The outcome cache_image_async produces for a url it has not seen before,
read off its code paths: none (keep the original url) when the domain is
blocked, the request raises, the status is not 200 or a size check fails;
otherwise the data URI built from the response.  Defined for stating the
rewrite dichotomy of cache_response_async. -/
def imgFetchResult (gd b64 : String → String) (blocked : List String)
    (net : String → NetResult) (u : String) : Option String :=
  if blocked.contains (gd u) then none
  else
    match net u with
    | NetResult.response status ct decl body =>
      if status ≠ 200 then none
      else if headerTooLarge decl then none
      else if max_image_size < body.length then none
      else some ("data:" ++ ct ++ ";base64," ++ b64 body)
    | NetResult.exc => none

/-- Invariant on the caches for one image url during the batch loop: a url
already processed with a successful outcome is cached under its digest; any
other url is still absent from both cache layers. -/
def UrlInv (h : String → String) (config : CacheConfig)
    (res : String → Option String) (done : List String)
    (st : ServiceState CacheVal) (u : String) : Prop :=
  match res u with
  | some d =>
    if u ∈ done then lookupKV (h u) st.memCache = some (CacheVal.str d)
    else lookupKV (h u) st.memCache = none ∧
      lookupKV (entryPath config "images" (h u)) st.fs = none
  | none =>
    lookupKV (h u) st.memCache = none ∧
    lookupKV (entryPath config "images" (h u)) st.fs = none

/-- Service-state invariant during the batch loop of cache_response_async:
the blocked-domain set is unchanged and every image url of the response is
in the per-url state demanded by UrlInv. -/
def StInv (h : String → String) (config : CacheConfig)
    (res : String → Option String) (allUrls done : List String)
    (B : List String) (st : ServiceState CacheVal) : Prop :=
  st.blockedDomains = B ∧ ∀ u ∈ allUrls, UrlInv h config res done st u

/-- The intended value of one article after the urls in done have been
processed: a non-empty processed url with a successful outcome is replaced
by its data URI, everything else is left alone. -/
def rewriteSpec (res : String → Option String) (done : List String)
    (a : Article) : Article :=
  match a.urlToImage with
  | some u =>
    if u = "" then a
    else if u ∈ done then
      match res u with
      | some d => { a with urlToImage := some d }
      | none => a
    else a
  | none => a

theorem lookupKV_insertKV_self {κ V : Type} [DecidableEq κ] (k : κ) (v : V) :
    ∀ l : List (κ × V), lookupKV k (insertKV k v l) = some v := by
  intro l
  induction l with
  | nil => simp [insertKV, lookupKV]
  | cons p rest ih =>
    by_cases hk : p.1 = k
    · simp [insertKV, lookupKV, hk]
    · simp only [insertKV, lookupKV]
      rw [if_neg hk, lookupKV, if_neg hk]
      exact ih

theorem lookupKV_eraseKV_ne {κ V : Type} [DecidableEq κ] (k k' : κ) (hne : k' ≠ k) :
    ∀ l : List (κ × V), lookupKV k (eraseKV k' l) = lookupKV k l := by
  intro l
  induction l with
  | nil => rfl
  | cons p rest ih =>
    by_cases ha : p.1 = k'
    · simp only [eraseKV, if_pos ha, lookupKV]
      rw [if_neg (by rw [ha]; exact hne)]
    · simp only [eraseKV, if_neg ha, lookupKV]
      by_cases hk : p.1 = k
      · rw [if_pos hk, if_pos hk]
      · rw [if_neg hk, if_neg hk, ih]

theorem lookupKV_of_not_mem_keys {κ V : Type} [DecidableEq κ] (k : κ) :
    ∀ l : List (κ × V), k ∉ l.map Prod.fst → lookupKV k l = none := by
  intro l
  induction l with
  | nil => intro _; rfl
  | cons p rest ih =>
    intro hk
    simp only [List.map_cons, List.mem_cons] at hk
    push_neg at hk
    simp only [lookupKV]
    rw [if_neg (fun he => hk.1 he.symm)]
    exact ih hk.2

theorem lookupKV_eraseKV_self {κ V : Type} [DecidableEq κ] (k : κ) :
    ∀ l : List (κ × V), (l.map Prod.fst).Nodup → lookupKV k (eraseKV k l) = none := by
  intro l
  induction l with
  | nil => intro _; rfl
  | cons p rest ih =>
    intro hnd
    simp only [List.map_cons, List.nodup_cons] at hnd
    by_cases ha : p.1 = k
    · simp only [eraseKV, if_pos ha]
      exact lookupKV_of_not_mem_keys k rest (ha ▸ hnd.1)
    · simp only [eraseKV, if_neg ha, lookupKV, if_neg ha]
      exact ih hnd.2

theorem eraseKV_sublist {κ V : Type} [DecidableEq κ] (k : κ) :
    ∀ l : List (κ × V), (eraseKV k l).Sublist l := by
  intro l
  induction l with
  | nil => exact List.Sublist.refl []
  | cons p rest ih =>
    by_cases ha : p.1 = k
    · simp only [eraseKV, if_pos ha]
      exact List.sublist_cons_self p rest
    · simp only [eraseKV, if_neg ha]
      exact List.Sublist.cons₂ p ih

theorem nodup_keys_eraseKV {κ V : Type} [DecidableEq κ] (k : κ)
    (l : List (κ × V)) (hnd : (l.map Prod.fst).Nodup) :
    ((eraseKV k l).map Prod.fst).Nodup :=
  List.Nodup.sublist (List.Sublist.map Prod.fst (eraseKV_sublist k l)) hnd

theorem lookupKV_of_eraseKV {κ V : Type} [DecidableEq κ] (k k' : κ) (v : V)
    (l : List (κ × V)) (hnd : (l.map Prod.fst).Nodup)
    (hl : lookupKV k (eraseKV k' l) = some v) : lookupKV k l = some v := by
  by_cases he : k' = k
  · rw [he] at hl
    rw [lookupKV_eraseKV_self k l hnd] at hl
    exact absurd hl (by simp)
  · rw [lookupKV_eraseKV_ne k k' he l] at hl
    exact hl

theorem lookupKV_foldl_eraseKV {κ V : Type} [DecidableEq κ] (k : κ) (v : V) :
    ∀ (E : List κ) (l : List (κ × V)), (l.map Prod.fst).Nodup →
      lookupKV k (E.foldl (fun m x => eraseKV x m) l) = some v →
      lookupKV k l = some v ∧ k ∉ E := by
  intro E
  induction E with
  | nil => intro l _ hl; exact ⟨hl, by simp⟩
  | cons e E' ih =>
    intro l hnd hl
    simp only [List.foldl_cons] at hl
    obtain ⟨h1, h2⟩ := ih (eraseKV e l) (nodup_keys_eraseKV e l hnd) hl
    refine ⟨lookupKV_of_eraseKV k e v l hnd h1, ?_⟩
    intro hmem
    rcases List.mem_cons.mp hmem with he | hE'
    · subst he
      rw [lookupKV_eraseKV_self k l hnd] at h1
      exact absurd h1 (by simp)
    · exact h2 hE'

theorem mem_of_lookupKV {κ V : Type} [DecidableEq κ] (k : κ) (v : V) :
    ∀ l : List (κ × V), lookupKV k l = some v → (k, v) ∈ l := by
  intro l
  induction l with
  | nil => intro hl; exact absurd hl (by simp [lookupKV])
  | cons p rest ih =>
    intro hl
    simp only [lookupKV] at hl
    by_cases ha : p.1 = k
    · rw [if_pos ha] at hl
      have hv : p.2 = v := by injection hl
      have hp : p = (k, v) := by
        obtain ⟨a, b⟩ := p
        simp only at ha hv
        rw [ha, hv]
      rw [← hp]
      exact List.mem_cons_self p rest
    · rw [if_neg ha] at hl
      exact List.mem_cons_of_mem p (ih hl)

theorem evictOldest_length {V : Type} :
    ∀ (fuel : Nat) (mem : List (String × V)) (ts : List (String × Nat))
      (mem' : List (String × V)) (ts' : List (String × Nat)),
      evictOldest fuel mem ts = some (mem', ts') →
      mem'.length ≤ memory_cache_size := by
  intro fuel
  induction fuel with
  | zero => intro mem ts mem' ts' he; exact absurd he (by simp [evictOldest])
  | succ fuel ih =>
    intro mem ts mem' ts' he
    simp only [evictOldest] at he
    by_cases hover : memory_cache_size < mem.length
    · rw [if_pos hover] at he
      cases hok : oldestKey ts with
      | none => rw [hok] at he; exact absurd he (by simp)
      | some p =>
        rw [hok] at he
        exact ih _ _ _ _ he
    · rw [if_neg hover] at he
      injection he with he'
      injection he' with h1 h2
      subst h1
      omega

theorem evictOldest_ts_lookup {V : Type} :
    ∀ (fuel : Nat) (mem : List (String × V)) (ts : List (String × Nat))
      (mem' : List (String × V)) (ts' : List (String × Nat)),
      (ts.map Prod.fst).Nodup →
      evictOldest fuel mem ts = some (mem', ts') →
      ∀ k v, lookupKV k ts' = some v → lookupKV k ts = some v := by
  intro fuel
  induction fuel with
  | zero => intro mem ts mem' ts' _ he; exact absurd he (by simp [evictOldest])
  | succ fuel ih =>
    intro mem ts mem' ts' hnd he k v hk
    simp only [evictOldest] at he
    by_cases hover : memory_cache_size < mem.length
    · rw [if_pos hover] at he
      cases hok : oldestKey ts with
      | none => rw [hok] at he; exact absurd he (by simp)
      | some p =>
        rw [hok] at he
        have := ih _ _ _ _ (nodup_keys_eraseKV p.1 ts hnd) he k v hk
        exact lookupKV_of_eraseKV k p.1 v ts hnd this
    · rw [if_neg hover] at he
      injection he with he'
      injection he' with h1 h2
      rw [h2]
      exact hk

set_option maxRecDepth 100000 in
/-- C3: the claim fails as stated.  One hundred and one set operations on
distinct keys leave one hundred and one entries in the memory cache, beyond
the configured capacity of one hundred: CacheService.set never invokes
_manage_memory_cache (no code in the repository does), so no eviction runs
after any sequence of inserts. -/
theorem C3_counterexample :
    ((((List.range 101).map (fun n => toString n)).foldl
      (fun st k => (CacheService.set (fun s => s) cfg true st k "v" "search").2.1)
      (ServiceState.mk ([] : List (String × String)) [] [] [])).memCache).length = 101 ∧
    memory_cache_size < 101 := by
  constructor
  · rfl
  · decide

/-- C3: the second half of the claim, on _manage_memory_cache run to
completion: the resulting memory cache is within capacity, and no surviving
timestamped entry is older than the TTL (the expired ones were removed in
the first phase, before any capacity-based eviction). -/
theorem C3_manage_within_capacity_and_ttl {V : Type} (t : Nat)
    (st st' : ServiceState V)
    (hnd : (st.memTimestamps.map Prod.fst).Nodup)
    (hm : manage_memory_cache t st = some st') :
    st'.memCache.length ≤ memory_cache_size ∧
    ∀ k ts, lookupKV k st'.memTimestamps = some ts → t - ts ≤ memory_cache_ttl := by
  simp only [manage_memory_cache] at hm
  cases he : evictOldest ((removeExpired t st).memTimestamps.length + 1)
      (removeExpired t st).memCache (removeExpired t st).memTimestamps with
  | none => rw [he] at hm; exact absurd hm (by simp)
  | some p =>
    rw [he] at hm
    have hst' : st' = { removeExpired t st with memCache := p.1, memTimestamps := p.2 } := by
      injection hm with hm'
      rw [← hm']
    have hnd1 : ((removeExpired t st).memTimestamps.map Prod.fst).Nodup := by
      simp only [removeExpired]
      have : ∀ (E : List String) (l : List (String × Nat)), (l.map Prod.fst).Nodup →
          ((E.foldl (fun m x => eraseKV x m) l).map Prod.fst).Nodup := by
        intro E
        induction E with
        | nil => intro l h; exact h
        | cons e E' ihE =>
          intro l h
          exact ihE (eraseKV e l) (nodup_keys_eraseKV e l h)
      exact this _ _ hnd
    constructor
    · rw [hst']
      exact evictOldest_length _ _ _ _ _ he
    · intro k ts hk
      rw [hst'] at hk
      have h1 : lookupKV k (removeExpired t st).memTimestamps = some ts :=
        evictOldest_ts_lookup _ _ _ _ _ hnd1 he k ts hk
      simp only [removeExpired] at h1
      obtain ⟨h2, h3⟩ := lookupKV_foldl_eraseKV k ts _ st.memTimestamps hnd h1
      by_contra hexp
      apply h3
      have hmem : (k, ts) ∈ st.memTimestamps := mem_of_lookupKV k ts _ h2
      simp only [expiredKeys, List.mem_map]
      refine ⟨(k, ts), List.mem_filter.mpr ⟨hmem, ?_⟩, rfl⟩
      simp only [decide_eq_true_eq]
      omega

/-- C3 witness: _manage_memory_cache at time 4000 on a two-entry cache
whose first entry was stamped at time 10 (expired) and whose second was
stamped at 3000 (fresh): the run succeeds, ends within capacity and keeps
no expired entry. -/
theorem C3_witness :
    ((ServiceState.mk [("a", "x"), ("b", "y")] [("a", 10), ("b", 3000)] []
      ([] : List (DirPath × String))).memTimestamps.map Prod.fst).Nodup ∧
    manage_memory_cache 4000
      (ServiceState.mk [("a", "x"), ("b", "y")] [("a", 10), ("b", 3000)] []
        ([] : List (DirPath × String))) =
      some (ServiceState.mk [("b", "y")] [("b", 3000)] [] []) ∧
    ((ServiceState.mk [("b", "y")] [("b", 3000)] []
      ([] : List (DirPath × String))).memCache.length ≤ memory_cache_size ∧
    ∀ k ts, lookupKV k (ServiceState.mk [("b", "y")] [("b", 3000)] []
      ([] : List (DirPath × String))).memTimestamps = some ts →
      4000 - ts ≤ memory_cache_ttl) :=
  ⟨by decide, by decide,
    C3_manage_within_capacity_and_ttl 4000
      (ServiceState.mk [("a", "x"), ("b", "y")] [("a", 10), ("b", 3000)] [] [])
      (ServiceState.mk [("b", "y")] [("b", 3000)] [] [])
      (by decide) (by decide)⟩

/-- C1: the claim fails as stated.  Starting from the empty service, set k to
v1, then set k to v2, then get k: the deduplication in CacheService.set sees
the digest of k already present and returns without writing, so get returns
v1, not the v2 the claim promises (same category, no time passes, no
cleanup runs). -/
theorem C1_counterexample :
    (CacheService.get (fun s => s) cfg
      (CacheService.set (fun s => s) cfg true
        (CacheService.set (fun s => s) cfg true
          (ServiceState.mk ([] : List (String × String)) [] [] [])
          "k" "v1" "search").2.1
        "k" "v2" "search").2.1
      "k" "search").1 = some "v1" ∧ "v1" ≠ "v2" := by
  constructor
  · rfl
  · decide

/-- C1 amended: for every key k and payload v, if the digest of k is not yet
a memory-cache key when set runs, then set(k, v) followed by get(k) with the
same category returns v (regardless of elapsed time, since get performs no
TTL check, and regardless of whether the persistent write succeeded). -/
theorem C1_set_then_get {V : Type} (h : String → String) (config : CacheConfig)
    (writeOk : Bool) (st : ServiceState V) (k : String) (v : V) (c : String)
    (hfresh : lookupKV (h k) st.memCache = none) :
    (CacheService.get h config
      (CacheService.set h config writeOk st k v c).2.1 k c).1 = some v := by
  cases writeOk <;>
    simp [CacheService.set, CacheService.get, FileSystemStorage.write, hfresh,
      lookupKV_insertKV_self]

/-- C1 witness: the amended theorem evaluated at the empty service. -/
theorem C1_witness :
    (CacheService.get (fun s => s) cfg
      (CacheService.set (fun s => s) cfg true
        (ServiceState.mk ([] : List (String × String)) [] [] [])
        "k" "v" "search").2.1
      "k" "search").1 = some "v" :=
  C1_set_then_get (fun s => s) cfg true _ "k" "v" "search" rfl

/-- C2: the claim fails as stated.  With k cached as v1, a subsequent
set(k, v2) is a complete no-op: the resulting state is unchanged (neither
cache layer is touched, no disk operation happens), the persistent entry
still holds v1, and get(k) still returns v1, not v2. -/
theorem C2_counterexample :
    (CacheService.set (fun s => s) cfg true
      (CacheService.set (fun s => s) cfg true
        (ServiceState.mk ([] : List (String × String)) [] [] [])
        "k" "v1" "search").2.1
      "k" "v2" "search") =
      (Except.ok (),
        (CacheService.set (fun s => s) cfg true
          (ServiceState.mk ([] : List (String × String)) [] [] [])
          "k" "v1" "search").2.1, []) ∧
    lookupKV ["cache", "search", "k.json"]
      ((CacheService.set (fun s => s) cfg true
        (CacheService.set (fun s => s) cfg true
          (ServiceState.mk ([] : List (String × String)) [] [] [])
          "k" "v1" "search").2.1
        "k" "v2" "search").2.1).fs = some "v1" ∧
    "v1" ≠ "v2" := by
  refine ⟨rfl, rfl, by decide⟩

/-- C2 amended: a set supersedes only when the digest of k is absent from
the memory cache (for instance on the first write of k); in that case, with
a succeeding disk write, the new value lands in both the memory cache and
the persistent store.  When the digest is already a memory-cache key, set
is a no-op and nothing is superseded (see the counterexample). -/
theorem C2_supersede_when_absent {V : Type} (h : String → String)
    (config : CacheConfig) (st : ServiceState V) (k : String) (v2 : V) (c : String)
    (hfresh : lookupKV (h k) st.memCache = none) :
    lookupKV (h k) ((CacheService.set h config true st k v2 c).2.1).memCache = some v2 ∧
    lookupKV (entryPath config c (h k))
      ((CacheService.set h config true st k v2 c).2.1).fs = some v2 := by
  simp [CacheService.set, FileSystemStorage.write, CacheConfig.get_cache_path,
    entryPath, hfresh, lookupKV_insertKV_self]

/-- C2 witness: the amended theorem evaluated at the empty service. -/
theorem C2_witness :
    lookupKV "k"
      ((CacheService.set (fun s => s) cfg true
        (ServiceState.mk ([] : List (String × String)) [] [] [])
        "k" "v2" "search").2.1).memCache = some "v2" ∧
    lookupKV (entryPath cfg "search" "k")
      ((CacheService.set (fun s => s) cfg true
        (ServiceState.mk ([] : List (String × String)) [] [] [])
        "k" "v2" "search").2.1).fs = some "v2" :=
  C2_supersede_when_absent (fun s => s) cfg _ "k" "v2" "search" rfl

/-- C7: the claim fails as stated.  A concrete persistent-store write
performs exactly two directory creations and one open of the final path for
writing: no temporary path is written and no rename is performed, so the
write is not atomic in the write-to-temp-then-rename sense. -/
theorem C7_counterexample :
    (FileSystemStorage.write cfg true ([] : List (DirPath × String))
      "d41d8cd9" "v" "search").2 =
      [Op.mkdirParents ["cache", "search"], Op.mkdirParents ["cache", "search"],
       Op.openWrite ["cache", "search", "d41d8cd9.json"]] ∧
    ((FileSystemStorage.write cfg true ([] : List (DirPath × String))
      "d41d8cd9" "v" "search").2.all fun op => !op.isRename) = true := by
  constructor <;> rfl

/-- C7 amended: every persistent-store write creates the missing parent
directories (twice, in fact) and then writes the entry directly to its
final path; no rename operation is ever performed, so the atomicity the
claim describes is absent. -/
theorem C7_write_not_atomic {V : Type} (config : CacheConfig) (writeOk : Bool)
    (fs : List (DirPath × V)) (key : String) (data : V) (cache_type : String) :
    (FileSystemStorage.write config writeOk fs key data cache_type).2 =
      [Op.mkdirParents [config.base_dir, cache_type],
       Op.mkdirParents [config.base_dir, cache_type],
       Op.openWrite (entryPath config cache_type key)] ∧
    ((FileSystemStorage.write config writeOk fs key data cache_type).2.all
      fun op => !op.isRename) = true := by
  have h1 : (FileSystemStorage.write config writeOk fs key data cache_type).2 =
      [Op.mkdirParents [config.base_dir, cache_type],
       Op.mkdirParents [config.base_dir, cache_type],
       Op.openWrite (entryPath config cache_type key)] := by
    cases writeOk <;>
      simp [FileSystemStorage.write, CacheConfig.get_cache_path, entryPath]
  rw [h1]
  exact ⟨rfl, rfl⟩

/-- C8: the claim fails as stated.  With a failing disk, set on the empty
service returns normally (the storage error is swallowed by the except
clause, nothing is surfaced to the caller) and the memory cache retains the
value that was inserted before the write failed. -/
theorem C8_counterexample :
    (CacheService.set (fun s => s) cfg false
      (ServiceState.mk ([] : List (String × String)) [] [] [])
      "k" "v" "search").1 = Except.ok () ∧
    lookupKV "k"
      ((CacheService.set (fun s => s) cfg false
        (ServiceState.mk ([] : List (String × String)) [] [] [])
        "k" "v" "search").2.1).memCache = some "v" := by
  constructor <;> rfl

/-- C8 amended: when the persistent write fails during set(k, v) on a key
not yet in the memory cache, the failure is logged and swallowed, so the
caller observes a normal (successful-looking) return; the memory cache
retains v while the persistent store is unchanged.  A later get(k) hence
serves v from memory even though the disk write never happened. -/
theorem C8_failed_write_swallowed {V : Type} (h : String → String)
    (config : CacheConfig) (st : ServiceState V) (k : String) (v : V) (c : String)
    (hfresh : lookupKV (h k) st.memCache = none) :
    (CacheService.set h config false st k v c).1 = Except.ok () ∧
    lookupKV (h k) ((CacheService.set h config false st k v c).2.1).memCache = some v ∧
    ((CacheService.set h config false st k v c).2.1).fs = st.fs := by
  simp [CacheService.set, FileSystemStorage.write, hfresh, lookupKV_insertKV_self]

/-- C8 witness: the amended theorem evaluated at the empty service. -/
theorem C8_witness :
    (CacheService.set (fun s => s) cfg false
      (ServiceState.mk ([] : List (String × String)) [] [] [])
      "k" "v" "search").1 = Except.ok () ∧
    lookupKV "k"
      ((CacheService.set (fun s => s) cfg false
        (ServiceState.mk ([] : List (String × String)) [] [] [])
        "k" "v" "search").2.1).memCache = some "v" ∧
    ((CacheService.set (fun s => s) cfg false
      (ServiceState.mk ([] : List (String × String)) [] [] [])
      "k" "v" "search").2.1).fs = [] :=
  C8_failed_write_swallowed (fun s => s) cfg _ "k" "v" "search" rfl

/-- C9: the claim fails as stated.  A filesystem whose only entry for the
key sits in a preceding date shard (the layout the spec describes, here the
previous day) yields a miss: the live read path consults only the single
undated path and probes no date shard, although the claim requires the
probe to find this entry. -/
theorem C9_counterexample :
    lookupKV ["cache", "2026", "10", "11", "search", "k.json"]
      ((ServiceState.mk ([] : List (String × String)) [] []
        [(["cache", "2026", "10", "11", "search", "k.json"], "v")]).fs) = some "v" ∧
    (CacheService.get (fun s => s) cfg
      (ServiceState.mk ([] : List (String × String)) [] []
        [(["cache", "2026", "10", "11", "search", "k.json"], "v")])
      "k" "search").1 = none := by
  constructor <;> rfl

/-- C9 amended: a persistent-store read consults exactly the single undated
path base_dir/category/digest.json; its outcome depends only on the memory
cache and on that one path, so entries in any date shard are never probed.
(A most-recent-first seven-day probe loop exists only in
CacheManager.get_cache_entry, which no code calls and which misuses the
async read, so it cannot return an entry.) -/
theorem C9_single_path_read {V : Type} (h : String → String) (config : CacheConfig)
    (k c : String) (st1 st2 : ServiceState V)
    (hmem : st1.memCache = st2.memCache)
    (hpath : lookupKV (entryPath config c (h k)) st1.fs =
             lookupKV (entryPath config c (h k)) st2.fs) :
    (CacheService.get h config st1 k c).1 = (CacheService.get h config st2 k c).1 := by
  have hep : ([config.base_dir, c] : List String) ++ [h k ++ ".json"] =
      entryPath config c (h k) := rfl
  simp only [CacheService.get, FileSystemStorage.read, CacheConfig.get_cache_path, hep]
  rw [hmem]
  cases lookupKV (h k) st2.memCache with
  | some v => rfl
  | none =>
    rw [hpath]
    cases lookupKV (entryPath config c (h k)) st2.fs <;> rfl

/-- C9 witness: the frame theorem evaluated at two concrete filesystems
agreeing on the single undated path (one of them holding an unrelated dated
entry). -/
theorem C9_witness :
    (CacheService.get (fun s => s) cfg
      (ServiceState.mk ([] : List (String × String)) [] []
        [(["cache", "2026", "10", "11", "search", "k.json"], "w")])
      "k" "search").1 =
    (CacheService.get (fun s => s) cfg
      (ServiceState.mk ([] : List (String × String)) [] [] [])
      "k" "search").1 :=
  C9_single_path_read (fun s => s) cfg "k" "search" _ _ rfl rfl

theorem lookupKV_insertKV_ne {κ V : Type} [DecidableEq κ] (k k' : κ) (hne : k ≠ k')
    (v : V) : ∀ l : List (κ × V), lookupKV k (insertKV k' v l) = lookupKV k l := by
  intro l
  induction l with
  | nil =>
    simp only [insertKV, lookupKV]
    rw [if_neg (fun he => hne he.symm)]
  | cons p rest ih =>
    by_cases ha : p.1 = k'
    · simp only [insertKV, if_pos ha, lookupKV]
      rw [if_neg (fun he => hne he.symm), if_neg (fun he => hne (ha.symm.trans he).symm)]
    · simp only [insertKV, if_neg ha, lookupKV]
      by_cases hk : p.1 = k
      · rw [if_pos hk, if_pos hk]
      · rw [if_neg hk, if_neg hk, ih]

theorem set_preserves_blockedDomains {V : Type} (h : String → String)
    (config : CacheConfig) (writeOk : Bool) (st : ServiceState V) (k : String)
    (v : V) (c : String) :
    ((CacheService.set h config writeOk st k v c).2.1).blockedDomains =
      st.blockedDomains := by
  by_cases hl : (lookupKV (h k) st.memCache).isSome <;> cases writeOk <;>
    simp [CacheService.set, FileSystemStorage.write, hl]

theorem get_preserves_blockedDomains {V : Type} (h : String → String)
    (config : CacheConfig) (st : ServiceState V) (k c : String) :
    ((CacheService.get h config st k c).2.1).blockedDomains = st.blockedDomains := by
  simp only [CacheService.get, FileSystemStorage.read, CacheConfig.get_cache_path]
  cases lookupKV (h k) st.memCache with
  | some v => rfl
  | none =>
    cases hfs : lookupKV [config.base_dir, c, h k ++ ".json"] st.fs <;> simp [hfs]

theorem cache_image_fetch_preserves_blockedDomains (h gd b64 : String → String)
    (config : CacheConfig) (writeOk : Bool) (net : String → NetResult)
    (st : ServiceState CacheVal) (url : String) (ops0 : List Op) :
    ((cache_image_fetch h gd b64 config writeOk net st url ops0).2.1).blockedDomains =
      st.blockedDomains := by
  simp only [cache_image_fetch]
  cases net url with
  | exc => rfl
  | response status ct decl body =>
    by_cases h200 : status ≠ 200
    · simp [h200]
    · by_cases hdecl : headerTooLarge decl = true
      · simp [h200, hdecl]
      · by_cases hbig : max_image_size < body.length
        · simp [h200, hdecl, hbig]
        · simp [h200, hdecl, hbig, set_preserves_blockedDomains]

/-- C4: the claim fails as stated, in its expiry half and in its premise
that failures get recorded.  Amended behaviour of the live code paths:
cache_image_async never touches blocked_domains, whatever the outcome (so
repeated fetch failures never cause a later fetch to be skipped); when a
domain does sit in blocked_domains the fetch is skipped entirely, returning
the original url with no operation performed; a single 403 response given to
_handle_error_response (itself called from nowhere) blocks the domain
immediately rather than after a threshold of consecutive failures.  The
unused DomainBlocker class does implement the claimed semantics: three
recorded failures block its domain while within block_duration of the last
failure, and the block lapses once block_duration has elapsed. -/
theorem C4_domain_blocking (h gd b64 : String → String) (config : CacheConfig)
    (writeOk : Bool) (net : String → NetResult) (st : ServiceState CacheVal)
    (url : String) :
    ((cache_image_async h gd b64 config writeOk net st url).2.1).blockedDomains =
        st.blockedDomains ∧
    (is_domain_blocked gd st url = true →
      cache_image_async h gd b64 config writeOk net st url =
        (CacheVal.str url, st, [])) ∧
    is_domain_blocked gd (handle_error_response gd st url 403) url = true ∧
    (∀ (t t' : Nat) (d : String), t' - t ≤ 3600 →
      (((((DomainBlocker.mk [] 3 3600).record_failure t d).record_failure t d).record_failure
        t d).should_block t' d).1 = true) ∧
    (∀ (t t' : Nat) (d : String), 3600 < t' - t →
      (((((DomainBlocker.mk [] 3 3600).record_failure t d).record_failure t d).record_failure
        t d).should_block t' d).1 = false) := by
  have hchain : ∀ (t : Nat) (d : String),
      (((DomainBlocker.mk [] 3 3600).record_failure t d).record_failure t d).record_failure
        t d = DomainBlocker.mk [(d, (t, 3))] 3 3600 := by
    intro t d
    have hstep : ∀ (t0 c : Nat),
        (DomainBlocker.mk [(d, (t0, c))] 3 3600).record_failure t d =
          DomainBlocker.mk [(d, (t, c + 1))] 3 3600 := by
      intro t0 c
      simp [DomainBlocker.record_failure, lookupKV, insertKV]
    have h1 : (DomainBlocker.mk [] 3 3600).record_failure t d =
        DomainBlocker.mk [(d, (t, 1))] 3 3600 := rfl
    rw [h1, hstep, hstep]
  have hlk : ∀ (t : Nat) (d : String),
      lookupKV d [(d, ((t, 3) : Nat × Nat))] = some (t, 3) := by
    intro t d
    simp [lookupKV]
  refine ⟨?_, ?_, ?_, ?_, ?_⟩
  · simp only [cache_image_async]
    by_cases hb : is_domain_blocked gd st url = true
    · rw [if_pos hb]
    · rw [if_neg hb]
      cases hg : CacheService.get h config st url "images" with
      | mk ores rest =>
        obtain ⟨st1, ops1⟩ := rest
        have hst1 : st1.blockedDomains = st.blockedDomains := by
          have hp := get_preserves_blockedDomains h config st url "images"
          rw [hg] at hp
          exact hp
        cases ores with
        | some cached =>
          dsimp only
          by_cases ht : cached.truthy = true
          · rw [if_pos ht]
            exact hst1
          · rw [if_neg ht]
            rw [cache_image_fetch_preserves_blockedDomains]
            exact hst1
        | none =>
          dsimp only
          rw [cache_image_fetch_preserves_blockedDomains]
          exact hst1
  · intro hb
    simp [cache_image_async, hb]
  · have h1 : handle_error_response gd st url 403 =
        { st with blockedDomains :=
            if st.blockedDomains.contains (gd url) then st.blockedDomains
            else gd url :: st.blockedDomains } := by
      simp [handle_error_response]
    rw [h1]
    simp only [is_domain_blocked]
    by_cases hc : st.blockedDomains.contains (gd url) = true
    · rw [if_pos hc]
      exact hc
    · rw [if_neg hc]
      simp [List.contains_cons]
  · intro t t' d hle
    rw [hchain t d]
    simp only [DomainBlocker.should_block, hlk t d]
    have hno : ¬ ((DomainBlocker.mk [(d, ((t, 3) : Nat × Nat))] 3 3600).block_duration <
        t' - (t, (3 : Nat)).1) := by
      simp only [DomainBlocker.block_duration]
      omega
    rw [if_neg hno]
    rfl
  · intro t t' d hgt
    rw [hchain t d]
    simp only [DomainBlocker.should_block, hlk t d]
    have hyes : (DomainBlocker.mk [(d, ((t, 3) : Nat × Nat))] 3 3600).block_duration <
        t' - (t, (3 : Nat)).1 := by
      simp only [DomainBlocker.block_duration]
      omega
    rw [if_pos hyes]

/-- C4 witness: the skip half of the amended theorem evaluated at a state
that already blocks the domain, plus the in-window DomainBlocker conclusion
at concrete times. -/
theorem C4_witness :
    cache_image_async (fun s => s) (fun s => s) (fun s => s) cfg true
      (fun _ => NetResult.exc) (ServiceState.mk [] [] ["d"] []) "d" =
      (CacheVal.str "d", ServiceState.mk [] [] ["d"] [], []) ∧
    (((((DomainBlocker.mk [] 3 3600).record_failure 100 "d").record_failure
      100 "d").record_failure 100 "d").should_block 200 "d").1 = true :=
  ⟨(C4_domain_blocking (fun s => s) (fun s => s) (fun s => s) cfg true
      (fun _ => NetResult.exc) (ServiceState.mk [] [] ["d"] []) "d").2.1 (by decide),
   (C4_domain_blocking (fun s => s) (fun s => s) (fun s => s) cfg true
      (fun _ => NetResult.exc) (ServiceState.mk [] [] ["d"] []) "d").2.2.2.1
      100 200 "d" (by decide)⟩

/-- C4: the claim fails as stated.  Three consecutive fetch failures for a
domain are never recorded anywhere: the state after them still has an empty
blocked_domains, and a fourth fetch to the same domain performs a real
network attempt (a netGet operation) and returns the original url, where the
claim requires the fourth fetch to be skipped with no network attempt. -/
theorem C4_counterexample :
    let fail := fun st : ServiceState CacheVal =>
      (cache_image_async (fun s => s) (fun s => s) (fun s => s) cfg true
        (fun _ => NetResult.exc) st "u").2.1
    let st3 := fail (fail (fail (ServiceState.mk [] [] [] [])))
    st3.blockedDomains = [] ∧
    ((cache_image_async (fun s => s) (fun s => s) (fun s => s) cfg true
      (fun _ => NetResult.exc) st3 "u").2.2.contains (Op.netGet "u")) = true ∧
    (cache_image_async (fun s => s) (fun s => s) (fun s => s) cfg true
      (fun _ => NetResult.exc) st3 "u").1 = CacheVal.str "u" := by
  exact ⟨rfl, rfl, rfl⟩

theorem countP_netGet_retry (url : String) (s : Nat) (l : List Op) :
    (Op.netGet url :: Op.sleep s :: l).countP (fun op => op.isNetGet) =
      l.countP (fun op => op.isNetGet) + 1 := by
  simp [List.countP_cons, Op.isNetGet]

theorem countP_netGet_single (url : String) :
    ([Op.netGet url] : List Op).countP (fun op => op.isNetGet) = 1 := by
  simp [List.countP_cons, Op.isNetGet]

theorem fetch_netGet_count_le (attempt : Nat → FetchTry) (url : String) :
    ∀ fuel retries,
      ((fetch_image_with_retry attempt url fuel retries).2.countP
        (fun op => op.isNetGet)) ≤ fuel := by
  intro fuel
  induction fuel with
  | zero => intro retries; simp [fetch_image_with_retry]
  | succ fuel ih =>
    intro retries
    simp only [fetch_image_with_retry]
    cases attempt retries with
    | response status decl body =>
      dsimp only
      by_cases h200 : status ≠ 200
      · rw [if_pos h200]
        by_cases hr : retries < max_retries
        · rw [if_pos hr]
          dsimp only
          rw [countP_netGet_retry]
          exact Nat.succ_le_succ (ih (retries + 1))
        · rw [if_neg hr]
          dsimp only
          rw [countP_netGet_single]
          omega
      · rw [if_neg h200]
        by_cases hdecl : headerTooLarge decl = true
        · rw [if_pos hdecl]
          dsimp only
          rw [countP_netGet_single]
          omega
        · rw [if_neg hdecl]
          by_cases hbig : max_image_size < body.length
          · rw [if_pos hbig]
            dsimp only
            rw [countP_netGet_single]
            omega
          · rw [if_neg hbig]
            dsimp only
            rw [countP_netGet_single]
            omega
    | timeout =>
      dsimp only
      by_cases hr : retries < max_retries
      · rw [if_pos hr]
        dsimp only
        rw [countP_netGet_retry]
        exact Nat.succ_le_succ (ih (retries + 1))
      · rw [if_neg hr]
        dsimp only
        rw [countP_netGet_single]
        omega
    | exc =>
      dsimp only
      by_cases hr : retries < max_retries
      · rw [if_pos hr]
        dsimp only
        rw [countP_netGet_retry]
        exact Nat.succ_le_succ (ih (retries + 1))
      · rw [if_neg hr]
        dsimp only
        rw [countP_netGet_single]
        omega

/-- C5: the claim fails as stated in its backoff formula, its fallback value
and its failure recording.  Amended: a fetch makes at most max_retries + 1
network attempts; when every attempt raises a timeout or a transient
exception it performs exactly the four attempts with sleeps of 1, 2 and 3
seconds between them - the linear formula 1 * (attempt + 1), although the
adjacent code comment says exponential backoff - and then returns None, not
the original url, recording no domain failure (the function has no access to
any failure state and fetch_image_with_retry is, moreover, called from
nowhere; the independent single-attempt path cache_image_async is what
returns original urls). -/
theorem C5_retry_behaviour (attempt : Nat → FetchTry) (url : String)
    (hfail : ∀ n, attempt n = FetchTry.timeout ∨ attempt n = FetchTry.exc) :
    ((fetch_image attempt url).2.countP (fun op => op.isNetGet)) ≤ max_retries + 1 ∧
    fetch_image attempt url =
      (none, [Op.netGet url, Op.sleep 1, Op.netGet url, Op.sleep 2,
              Op.netGet url, Op.sleep 3, Op.netGet url]) ∧
    sleepsOf (fetch_image attempt url).2 = [1, 2, 3] := by
  have hmain : fetch_image attempt url =
      (none, [Op.netGet url, Op.sleep 1, Op.netGet url, Op.sleep 2,
              Op.netGet url, Op.sleep 3, Op.netGet url]) := by
    rcases hfail 0 with h0 | h0 <;> rcases hfail 1 with h1 | h1 <;>
      rcases hfail 2 with h2 | h2 <;> rcases hfail 3 with h3 | h3 <;>
        simp [fetch_image, fetch_image_with_retry, h0, h1, h2, h3, max_retries]
  refine ⟨?_, hmain, ?_⟩
  · exact fetch_netGet_count_le attempt url (max_retries + 1) 0
  · rw [hmain]
    rfl

/-- C5 witness: the amended theorem evaluated at the all-timeouts oracle. -/
theorem C5_witness :
    ((fetch_image (fun _ => FetchTry.timeout) "u").2.countP
      (fun op => op.isNetGet)) ≤ max_retries + 1 ∧
    fetch_image (fun _ => FetchTry.timeout) "u" =
      (none, [Op.netGet "u", Op.sleep 1, Op.netGet "u", Op.sleep 2,
              Op.netGet "u", Op.sleep 3, Op.netGet "u"]) ∧
    sleepsOf (fetch_image (fun _ => FetchTry.timeout) "u").2 = [1, 2, 3] :=
  C5_retry_behaviour (fun _ => FetchTry.timeout) "u" (fun _ => Or.inl rfl)

/-- C5: the claim fails as stated.  With every attempt timing out, the sleep
sequence is 1, 2, 3 seconds - not base * 2 ^ attempt for any base - and the
exhausted fetch returns None rather than the original url. -/
theorem C5_counterexample :
    fetch_image (fun _ => FetchTry.timeout) "u" =
      (none, [Op.netGet "u", Op.sleep 1, Op.netGet "u", Op.sleep 2,
              Op.netGet "u", Op.sleep 3, Op.netGet "u"]) ∧
    sleepsOf (fetch_image (fun _ => FetchTry.timeout) "u").2 = [1, 2, 3] ∧
    (¬ ∃ base : Nat, [1, 2, 3] =
      [base * 2 ^ 0, base * 2 ^ 1, base * 2 ^ 2]) ∧
    (fetch_image (fun _ => FetchTry.timeout) "u").1 ≠ some "u" := by
  refine ⟨rfl, rfl, ?_, by decide⟩
  rintro ⟨b, hb⟩
  simp only [pow_zero, pow_one, mul_one, List.cons.injEq] at hb
  omega

/-- C10: the claim fails as stated.  A get served from the memory cache
performs no filesystem operation at all: with the key in memory it returns
the value with an empty operation list, so this get does not create the
category directory even when it is absent. -/
theorem C10_counterexample :
    (CacheService.get (fun s => s) cfg
      (ServiceState.mk [("k", "v")] [] [] []) "k" "search").1 = some "v" ∧
    (CacheService.get (fun s => s) cfg
      (ServiceState.mk [("k", "v")] [] [] []) "k" "search").2.2 = [] := by
  constructor <;> rfl

/-- C10 amended: every get that misses the memory cache - in particular
every get returning a full miss - performs the mkdir of
base_dir/category (parents included, exist_ok) on disk, because
FileSystemStorage.read builds its path via CacheConfig.get_cache_path;
such reads are not free of filesystem writes.  Only a memory-cache hit
avoids the filesystem entirely. -/
theorem C10_miss_creates_dir {V : Type} (h : String → String) (config : CacheConfig)
    (st : ServiceState V) (k c : String)
    (hmiss : lookupKV (h k) st.memCache = none) :
    Op.mkdirParents [config.base_dir, c] ∈ (CacheService.get h config st k c).2.2 := by
  simp only [CacheService.get, FileSystemStorage.read, CacheConfig.get_cache_path, hmiss]
  cases lookupKV (([config.base_dir, c] : List String) ++ [h k ++ ".json"]) st.fs <;>
    simp

/-- C10 witness: the amended theorem evaluated at the empty service, where
the get is a full miss. -/
theorem C10_witness :
    Op.mkdirParents ["cache", "search"] ∈
      (CacheService.get (fun s => s) cfg
        (ServiceState.mk ([] : List (String × String)) [] [] [])
        "k" "search").2.2 :=
  C10_miss_creates_dir (fun s => s) cfg _ "k" "search" rfl

theorem startsWithData_append (s : String) :
    startsWithData ("data:" ++ s) = true := by
  unfold startsWithData
  rw [String.data_append, List.isPrefixOf_iff_prefix]
  exact List.prefix_append _ _

theorem ne_dataUri_of_not_startsWithData (u s : String)
    (hne : startsWithData u = false) : u ≠ "data:" ++ s := by
  intro he
  rw [he, startsWithData_append] at hne
  exact absurd hne (by simp)

theorem dataUri_ne_empty (s : String) : ("data:" ++ s) ≠ "" := by
  intro he
  have hd := congrArg String.data he
  simp [String.data_append] at hd

theorem dataUri_truthy (s : String) :
    (CacheVal.str ("data:" ++ s)).truthy = true := by
  simp [CacheVal.truthy, dataUri_ne_empty s]

theorem append_json_ne (a b : String) (hne : a ≠ b) : a ++ ".json" ≠ b ++ ".json" := by
  intro he
  apply hne
  have hd := congrArg String.data he
  simp [String.data_append] at hd
  exact String.ext hd

theorem entryPath_images_ne (config : CacheConfig) (x y : String) (hne : x ≠ y) :
    entryPath config "images" x ≠ entryPath config "images" y := by
  simp only [entryPath, ne_eq, List.cons.injEq]
  intro he
  exact append_json_ne x y hne he.2.2.1

theorem entryPath_search_ne_images (config : CacheConfig) (x y : String) :
    entryPath config "search" x ≠ entryPath config "images" y := by
  simp [entryPath]

theorem set_memCache_lookup_other {V : Type} (h : String → String)
    (config : CacheConfig) (writeOk : Bool) (st : ServiceState V) (key : String)
    (v : V) (c : String) (k : String) (hk : k ≠ h key) :
    lookupKV k (((CacheService.set h config writeOk st key v c).2.1).memCache) =
      lookupKV k st.memCache := by
  by_cases hp : (lookupKV (h key) st.memCache).isSome <;> cases writeOk <;>
    simp [CacheService.set, FileSystemStorage.write, hp,
      lookupKV_insertKV_ne k (h key) hk]

theorem set_memCache_lookup_fresh {V : Type} (h : String → String)
    (config : CacheConfig) (writeOk : Bool) (st : ServiceState V) (key : String)
    (v : V) (c : String) (hfresh : lookupKV (h key) st.memCache = none) :
    lookupKV (h key) (((CacheService.set h config writeOk st key v c).2.1).memCache) =
      some v := by
  cases writeOk <;>
    simp [CacheService.set, FileSystemStorage.write, hfresh, lookupKV_insertKV_self]

theorem set_fs_lookup_other {V : Type} (h : String → String)
    (config : CacheConfig) (writeOk : Bool) (st : ServiceState V) (key : String)
    (v : V) (c : String) (p : DirPath) (hp : p ≠ entryPath config c (h key)) :
    lookupKV p (((CacheService.set h config writeOk st key v c).2.1).fs) =
      lookupKV p st.fs := by
  have hp' : p ≠ [config.base_dir, c, h key ++ ".json"] := by
    simpa [entryPath] using hp
  by_cases hd : (lookupKV (h key) st.memCache).isSome <;> cases writeOk <;>
    simp [CacheService.set, FileSystemStorage.write, CacheConfig.get_cache_path, hd,
      lookupKV_insertKV_ne p ([config.base_dir, c, h key ++ ".json"]) hp']

theorem get_of_memCache_hit {V : Type} (h : String → String) (config : CacheConfig)
    (st : ServiceState V) (key c : String) (v : V)
    (hv : lookupKV (h key) st.memCache = some v) :
    CacheService.get h config st key c = (some v, st, []) := by
  simp [CacheService.get, hv]

theorem get_of_full_miss {V : Type} (h : String → String) (config : CacheConfig)
    (st : ServiceState V) (key c : String)
    (hm : lookupKV (h key) st.memCache = none)
    (hf : lookupKV (entryPath config c (h key)) st.fs = none) :
    CacheService.get h config st key c =
      (none, st, [Op.mkdirParents [config.base_dir, c],
        Op.statExists [config.base_dir, c, h key ++ ".json"]]) := by
  have hf' : lookupKV [config.base_dir, c, h key ++ ".json"] st.fs = none := by
    simpa [entryPath] using hf
  simp [CacheService.get, FileSystemStorage.read, CacheConfig.get_cache_path, hm, hf']

theorem dataUriFull_ne_empty (ct x : String) :
    ("data:" ++ ct ++ ";base64," ++ x) ≠ "" := by
  intro he
  have hd := congrArg String.data he
  simp [String.data_append] at hd

theorem dataUriFull_truthy (ct x : String) :
    (CacheVal.str ("data:" ++ ct ++ ";base64," ++ x)).truthy = true := by
  simp [CacheVal.truthy, dataUriFull_ne_empty ct x]

theorem startsWithData_full (ct x : String) :
    startsWithData ("data:" ++ ct ++ ";base64," ++ x) = true := by
  unfold startsWithData
  rw [List.isPrefixOf_iff_prefix]
  simp only [String.data_append, List.append_assoc]
  exact List.prefix_append _ _

theorem ne_dataUriFull (u ct x : String) (hne : startsWithData u = false) :
    u ≠ "data:" ++ ct ++ ";base64," ++ x := by
  intro he
  rw [he, startsWithData_full] at hne
  exact absurd hne (by simp)

theorem cache_image_async_step (h gd b64 : String → String) (config : CacheConfig)
    (writeOk : Bool) (net : String → NetResult) (B : List String)
    (done : List String) (st : ServiceState CacheVal) (u : String)
    (hB : st.blockedDomains = B)
    (hu : UrlInv h config (imgFetchResult gd b64 B net) done st u) :
    (cache_image_async h gd b64 config writeOk net st u).1 =
      CacheVal.str (match imgFetchResult gd b64 B net u with
        | some d => d
        | none => u) ∧
    ((cache_image_async h gd b64 config writeOk net st u).2.1).blockedDomains = B ∧
    UrlInv h config (imgFetchResult gd b64 B net) (done ++ [u])
      ((cache_image_async h gd b64 config writeOk net st u).2.1) u ∧
    (∀ k, k ≠ h u →
      lookupKV k (((cache_image_async h gd b64 config writeOk net st u).2.1).memCache) =
        lookupKV k st.memCache) ∧
    (∀ p : DirPath, p ≠ entryPath config "images" (h u) →
      lookupKV p (((cache_image_async h gd b64 config writeOk net st u).2.1).fs) =
        lookupKV p st.fs) := by
  by_cases hblk : B.contains (gd u) = true
  · have hblk' : gd u ∈ B := List.mem_of_elem_eq_true hblk
    have hbd : is_domain_blocked gd st u = true := by
      simp [is_domain_blocked, hB, hblk']
    have hresu : imgFetchResult gd b64 B net u = none := by
      simp [imgFetchResult, hblk']
    have hcall : cache_image_async h gd b64 config writeOk net st u =
        (CacheVal.str u, st, []) := by
      simp [cache_image_async, hbd]
    simp only [UrlInv, hresu] at hu
    refine ⟨by rw [hcall, hresu], by rw [hcall]; exact hB, ?_,
      fun k _ => by rw [hcall], fun p _ => by rw [hcall]⟩
    simp only [UrlInv, hresu]
    rw [hcall]
    exact hu
  · have hbd : is_domain_blocked gd st u = false := by
      simp only [is_domain_blocked, hB]
      cases hcb : B.contains (gd u) with
      | true => exact absurd hcb hblk
      | false => rfl
    have hblk' : gd u ∉ B := fun hm => hblk (List.elem_eq_true_of_mem hm)
    have hb2 : cache_image_async h gd b64 config writeOk net st u =
        (match CacheService.get h config st u "images" with
          | (some cached, st1, ops1) =>
            if cached.truthy then (cached, st1, ops1)
            else cache_image_fetch h gd b64 config writeOk net st1 u ops1
          | (none, st1, ops1) =>
            cache_image_fetch h gd b64 config writeOk net st1 u ops1) := by
      simp [cache_image_async, hbd]
    cases hnet : net u with
    | exc =>
      have hresu : imgFetchResult gd b64 B net u = none := by
        simp [imgFetchResult, hblk', hnet]
      simp only [UrlInv, hresu] at hu
      have hget := get_of_full_miss h config st u "images" hu.1 hu.2
      have hcall : cache_image_async h gd b64 config writeOk net st u =
          (CacheVal.str u, st,
            [Op.mkdirParents [config.base_dir, "images"],
             Op.statExists [config.base_dir, "images", h u ++ ".json"],
             Op.netGet u]) := by
        rw [hb2, hget]
        simp [cache_image_fetch, hnet]
      refine ⟨by rw [hcall, hresu], by rw [hcall]; exact hB, ?_,
        fun k _ => by rw [hcall], fun p _ => by rw [hcall]⟩
      simp only [UrlInv, hresu]
      rw [hcall]
      exact hu
    | response status ct decl body =>
      by_cases h200 : status ≠ 200
      · have hresu : imgFetchResult gd b64 B net u = none := by
          simp [imgFetchResult, hblk', hnet, h200]
        simp only [UrlInv, hresu] at hu
        have hget := get_of_full_miss h config st u "images" hu.1 hu.2
        have hcall : cache_image_async h gd b64 config writeOk net st u =
            (CacheVal.str u, st,
              [Op.mkdirParents [config.base_dir, "images"],
               Op.statExists [config.base_dir, "images", h u ++ ".json"],
               Op.netGet u]) := by
          rw [hb2, hget]
          dsimp only
          simp only [cache_image_fetch, hnet]
          rw [if_pos h200]
          simp
        refine ⟨by rw [hcall, hresu], by rw [hcall]; exact hB, ?_,
          fun k _ => by rw [hcall], fun p _ => by rw [hcall]⟩
        simp only [UrlInv, hresu]
        rw [hcall]
        exact hu
      · by_cases hdecl : headerTooLarge decl = true
        · have hresu : imgFetchResult gd b64 B net u = none := by
            simp [imgFetchResult, hblk', hnet, h200, hdecl]
          simp only [UrlInv, hresu] at hu
          have hget := get_of_full_miss h config st u "images" hu.1 hu.2
          have hcall : cache_image_async h gd b64 config writeOk net st u =
              (CacheVal.str u, st,
                [Op.mkdirParents [config.base_dir, "images"],
                 Op.statExists [config.base_dir, "images", h u ++ ".json"],
                 Op.netGet u]) := by
            rw [hb2, hget]
            dsimp only
            simp only [cache_image_fetch, hnet]
            rw [if_neg h200, if_pos hdecl]
            simp
          refine ⟨by rw [hcall, hresu], by rw [hcall]; exact hB, ?_,
            fun k _ => by rw [hcall], fun p _ => by rw [hcall]⟩
          simp only [UrlInv, hresu]
          rw [hcall]
          exact hu
        · by_cases hbig : max_image_size < body.length
          · have hresu : imgFetchResult gd b64 B net u = none := by
              simp [imgFetchResult, hblk', hnet, h200, hdecl, hbig]
            simp only [UrlInv, hresu] at hu
            have hget := get_of_full_miss h config st u "images" hu.1 hu.2
            have hcall : cache_image_async h gd b64 config writeOk net st u =
                (CacheVal.str u, st,
                  [Op.mkdirParents [config.base_dir, "images"],
                   Op.statExists [config.base_dir, "images", h u ++ ".json"],
                   Op.netGet u]) := by
              rw [hb2, hget]
              dsimp only
              simp only [cache_image_fetch, hnet]
              rw [if_neg h200, if_neg hdecl, if_pos hbig]
              simp
            refine ⟨by rw [hcall, hresu], by rw [hcall]; exact hB, ?_,
              fun k _ => by rw [hcall], fun p _ => by rw [hcall]⟩
            simp only [UrlInv, hresu]
            rw [hcall]
            exact hu
          · have hresu : imgFetchResult gd b64 B net u =
                some ("data:" ++ ct ++ ";base64," ++ b64 body) := by
              simp [imgFetchResult, hblk', hnet, h200, hdecl, hbig]
            by_cases hdone : u ∈ done
            · have hmem : lookupKV (h u) st.memCache =
                  some (CacheVal.str ("data:" ++ ct ++ ";base64," ++ b64 body)) := by
                simp only [UrlInv, hresu, if_pos hdone] at hu
                exact hu
              have hget := get_of_memCache_hit h config st u "images" _ hmem
              have hcall : cache_image_async h gd b64 config writeOk net st u =
                  (CacheVal.str ("data:" ++ ct ++ ";base64," ++ b64 body), st, []) := by
                rw [hb2, hget]
                dsimp only
                rw [if_pos (dataUriFull_truthy ct (b64 body))]
              refine ⟨by rw [hcall, hresu], by rw [hcall]; exact hB, ?_,
                fun k _ => by rw [hcall], fun p _ => by rw [hcall]⟩
              simp only [UrlInv, hresu]
              rw [if_pos (by simp : u ∈ done ++ [u]), hcall]
              exact hmem
            · have hu' : lookupKV (h u) st.memCache = none ∧
                  lookupKV (entryPath config "images" (h u)) st.fs = none := by
                simp only [UrlInv, hresu, if_neg hdone] at hu
                exact hu
              have hget := get_of_full_miss h config st u "images" hu'.1 hu'.2
              have hcall1 : (cache_image_async h gd b64 config writeOk net st u).1 =
                    CacheVal.str ("data:" ++ ct ++ ";base64," ++ b64 body) ∧
                  (cache_image_async h gd b64 config writeOk net st u).2.1 =
                    (CacheService.set h config writeOk st u
                      (CacheVal.str ("data:" ++ ct ++ ";base64," ++ b64 body))
                      "images").2.1 := by
                rw [hb2, hget]
                dsimp only
                simp only [cache_image_fetch, hnet]
                rw [if_neg h200, if_neg hdecl, if_neg hbig]
                exact ⟨rfl, rfl⟩
              refine ⟨by rw [hresu]; exact hcall1.1,
                by rw [hcall1.2, set_preserves_blockedDomains]; exact hB, ?_, ?_, ?_⟩
              · simp only [UrlInv, hresu]
                rw [if_pos (by simp : u ∈ done ++ [u]), hcall1.2]
                exact set_memCache_lookup_fresh h config writeOk st u _ "images" hu'.1
              · intro k hk
                rw [hcall1.2]
                exact set_memCache_lookup_other h config writeOk st u _ "images" k hk
              · intro p hp
                rw [hcall1.2]
                exact set_fs_lookup_other h config writeOk st u _ "images" p hp

theorem UrlInv_frame (h : String → String) (config : CacheConfig)
    (res : String → Option String) (done : List String) (u' u : String)
    (st st' : ServiceState CacheVal) (hne : u' ≠ u)
    (hm : lookupKV (h u') st'.memCache = lookupKV (h u') st.memCache)
    (hf : lookupKV (entryPath config "images" (h u')) st'.fs =
          lookupKV (entryPath config "images" (h u')) st.fs)
    (hI : UrlInv h config res done st u') :
    UrlInv h config res (done ++ [u]) st' u' := by
  simp only [UrlInv] at hI ⊢
  cases hres : res u' with
  | some d =>
    rw [hres] at hI
    dsimp only at hI ⊢
    have hmm : (u' ∈ done ++ [u]) ↔ (u' ∈ done) := by
      simp [List.mem_append, hne]
    by_cases hdone : u' ∈ done
    · rw [if_pos (hmm.mpr hdone)]
      rw [if_pos hdone] at hI
      exact hm.trans hI
    · rw [if_neg (fun hx => hdone (hmm.mp hx))]
      rw [if_neg hdone] at hI
      exact ⟨hm.trans hI.1, hf.trans hI.2⟩
  | none =>
    rw [hres] at hI
    exact ⟨hm.trans hI.1, hf.trans hI.2⟩

theorem runBatch_spec (h gd b64 : String → String) (config : CacheConfig)
    (writeOk : Bool) (net : String → NetResult) (B : List String)
    (allUrls : List String) (hinj : Function.Injective h) :
    ∀ (batch done : List String) (st : ServiceState CacheVal),
      (∀ u ∈ batch, u ∈ allUrls) →
      StInv h config (imgFetchResult gd b64 B net) allUrls done B st →
      (runBatch h gd b64 config writeOk net st batch).1 =
        batch.map (fun u => CacheVal.str
          (match imgFetchResult gd b64 B net u with | some d => d | none => u)) ∧
      StInv h config (imgFetchResult gd b64 B net) allUrls (done ++ batch) B
        ((runBatch h gd b64 config writeOk net st batch).2.1) := by
  intro batch
  induction batch with
  | nil =>
    intro done st _ hst
    refine ⟨rfl, ?_⟩
    simpa using hst
  | cons u rest ih =>
    intro done st hmem hst
    obtain ⟨hBst, hurls⟩ := hst
    obtain ⟨hr1, hrB, hrU, hrMem, hrFs⟩ :=
      cache_image_async_step h gd b64 config writeOk net B done st u hBst
        (hurls u (hmem u (by simp)))
    have hst' : StInv h config (imgFetchResult gd b64 B net) allUrls (done ++ [u]) B
        ((cache_image_async h gd b64 config writeOk net st u).2.1) := by
      refine ⟨hrB, ?_⟩
      intro u' hu'
      by_cases heq : u' = u
      · rw [heq]
        exact hrU
      · have hne : h u' ≠ h u := fun hhe => heq (hinj hhe)
        exact UrlInv_frame h config _ done u' u st _ heq (hrMem (h u') hne)
          (hrFs (entryPath config "images" (h u'))
            (entryPath_images_ne config (h u') (h u) hne)) (hurls u' hu')
    have hrest := ih (done ++ [u])
      ((cache_image_async h gd b64 config writeOk net st u).2.1)
      (fun v hv => hmem v (by simp [hv])) hst'
    constructor
    · simp only [runBatch, List.map_cons]
      rw [hr1, hrest.1]
    · have hdd : done ++ u :: rest = (done ++ [u]) ++ rest := by simp
      rw [hdd]
      simp only [runBatch]
      exact hrest.2

theorem imgFetchResult_shape (gd b64 : String → String) (B : List String)
    (net : String → NetResult) (v d : String)
    (hr : imgFetchResult gd b64 B net v = some d) :
    ∃ ct x, d = "data:" ++ ct ++ ";base64," ++ x := by
  unfold imgFetchResult at hr
  by_cases hb : B.contains (gd v) = true
  · rw [if_pos hb] at hr
    exact absurd hr (by simp)
  · rw [if_neg hb] at hr
    cases hnet : net v with
    | exc =>
      rw [hnet] at hr
      exact absurd hr (by simp)
    | response status ct decl body =>
      rw [hnet] at hr
      dsimp only at hr
      by_cases h200 : status ≠ 200
      · rw [if_pos h200] at hr
        exact absurd hr (by simp)
      · rw [if_neg h200] at hr
        by_cases hdecl : headerTooLarge decl = true
        · rw [if_pos hdecl] at hr
          exact absurd hr (by simp)
        · rw [if_neg hdecl] at hr
          by_cases hbig : max_image_size < body.length
          · rw [if_pos hbig] at hr
            exact absurd hr (by simp)
          · rw [if_neg hbig] at hr
            refine ⟨ct, b64 body, ?_⟩
            injection hr with hr'
            exact hr'.symm

theorem chunksGo_mem {α : Type} (n : Nat) :
    ∀ (fuel : Nat) (l b : List α), b ∈ chunksGo n fuel l → ∀ x ∈ b, x ∈ l := by
  intro fuel
  induction fuel with
  | zero =>
    intro l b hb
    simp [chunksGo] at hb
  | succ fuel ih =>
    intro l b hb x hx
    cases l with
    | nil => simp [chunksGo] at hb
    | cons a rest =>
      simp only [chunksGo] at hb
      rcases List.mem_cons.mp hb with hb1 | hb2
      · rw [hb1] at hx
        exact List.mem_of_mem_take hx
      · exact List.mem_of_mem_drop (ih _ _ hb2 x hx)

theorem chunksGo_join {α : Type} (n : Nat) (hn : 0 < n) :
    ∀ (fuel : Nat) (l : List α), l.length ≤ fuel → (chunksGo n fuel l).join = l := by
  intro fuel
  induction fuel with
  | zero =>
    intro l hl
    have hnil : l = [] := List.eq_nil_of_length_eq_zero (Nat.le_zero.mp hl)
    rw [hnil]
    rfl
  | succ fuel ih =>
    intro l hl
    cases l with
    | nil => rfl
    | cons a rest =>
      have hstep : (chunksGo n (fuel + 1) (a :: rest)).join =
          (a :: rest).take n ++ (chunksGo n fuel ((a :: rest).drop n)).join := rfl
      rw [hstep, ih ((a :: rest).drop n) ?_]
      · exact List.take_append_drop n (a :: rest)
      · rw [List.length_drop]
        simp only [List.length_cons] at hl ⊢
        omega

theorem mem_imageUrls (r : Response) (a : Article) (v : String)
    (ha : a ∈ r.articles) (hv : a.urlToImage = some v) (hne : v ≠ "") :
    v ∈ imageUrls r := by
  simp only [imageUrls, List.mem_filterMap]
  refine ⟨a, ha, ?_⟩
  rw [hv]
  simp [hne]

theorem imageUrls_ne_empty (r : Response) : ∀ v ∈ imageUrls r, v ≠ "" := by
  intro v hv
  simp only [imageUrls, List.mem_filterMap] at hv
  obtain ⟨a, _, ha⟩ := hv
  cases hu : a.urlToImage with
  | none =>
    rw [hu] at ha
    exact absurd ha (by simp)
  | some w =>
    rw [hu] at ha
    dsimp only at ha
    by_cases hw : w = ""
    · rw [if_pos hw] at ha
      exact absurd ha (by simp)
    · rw [if_neg hw] at ha
      injection ha with ha'
      rw [← ha']
      exact hw

theorem article_url_cases (r : Response) (a : Article) (ha : a ∈ r.articles)
    (v : String) (hv : a.urlToImage = some v) : v = "" ∨ v ∈ imageUrls r := by
  by_cases hev : v = ""
  · exact Or.inl hev
  · exact Or.inr (mem_imageUrls r a v ha hv hev)

theorem rewriteSpec_step_pointwise (res : String → Option String)
    (allUrls done : List String) (u d : String) (a : Article)
    (hu_all : u ∈ allUrls) (hres_u : res u = some d)
    (hshape : ∀ v w, res v = some w → ∃ ct x, w = "data:" ++ ct ++ ";base64," ++ x)
    (hnodata : ∀ v ∈ allUrls, startsWithData v = false)
    (hne_nil : ∀ v ∈ allUrls, v ≠ "")
    (hav : ∀ v, a.urlToImage = some v → v = "" ∨ v ∈ allUrls) :
    (if (rewriteSpec res done a).urlToImage = some u
      then { rewriteSpec res done a with urlToImage := some d }
      else rewriteSpec res done a) =
    rewriteSpec res (done ++ [u]) a := by
  have hu_ne_nil : u ≠ "" := hne_nil u hu_all
  have hu_nodata : startsWithData u = false := hnodata u hu_all
  cases hurl : a.urlToImage with
  | none =>
    have h1 : rewriteSpec res done a = a := by simp [rewriteSpec, hurl]
    have h2 : rewriteSpec res (done ++ [u]) a = a := by simp [rewriteSpec, hurl]
    rw [h1, h2, hurl]
    rw [if_neg (by simp)]
  | some v =>
    by_cases hvnil : v = ""
    · have h1 : rewriteSpec res done a = a := by simp [rewriteSpec, hurl, hvnil]
      have h2 : rewriteSpec res (done ++ [u]) a = a := by
        simp [rewriteSpec, hurl, hvnil]
      rw [h1, h2, hurl]
      rw [if_neg (by
        intro he
        injection he with he'
        rw [hvnil] at he'
        exact hu_ne_nil he'.symm)]
    · have hv_all : v ∈ allUrls := by
        rcases hav v hurl with hx | hx
        · exact absurd hx hvnil
        · exact hx
      by_cases hveq : v = u
      · by_cases hdone : u ∈ done
        · have h1 : rewriteSpec res done a = { a with urlToImage := some d } := by
            simp [rewriteSpec, hurl, hvnil, hu_ne_nil, hveq, hdone, hres_u]
          have h2 : rewriteSpec res (done ++ [u]) a = { a with urlToImage := some d } := by
            simp [rewriteSpec, hurl, hvnil, hu_ne_nil, hveq, hres_u]
          obtain ⟨ct, x, hdx⟩ := hshape u d hres_u
          have hcond : ¬ (({ a with urlToImage := some d } : Article).urlToImage = some u) := by
            intro he
            simp only [Option.some.injEq] at he
            exact (ne_dataUriFull u ct x hu_nodata) (he ▸ hdx)
          rw [h1, h2, if_neg hcond]
        · have h1 : rewriteSpec res done a = a := by
            simp [rewriteSpec, hurl, hvnil, hu_ne_nil, hveq, hdone]
          have h2 : rewriteSpec res (done ++ [u]) a = { a with urlToImage := some d } := by
            simp [rewriteSpec, hurl, hvnil, hu_ne_nil, hveq, hres_u]
          rw [h1, h2, if_pos (by rw [hurl, hveq])]
      · have hne_vu : ¬ (a.urlToImage = some u) := by
          rw [hurl]
          intro he
          injection he with he'
          exact hveq he'
        by_cases hdone : v ∈ done
        · cases hres_v : res v with
          | some d0 =>
            have h1 : rewriteSpec res done a = { a with urlToImage := some d0 } := by
              simp [rewriteSpec, hurl, hvnil, hdone, hres_v]
            have h2 : rewriteSpec res (done ++ [u]) a =
                { a with urlToImage := some d0 } := by
              simp [rewriteSpec, hurl, hvnil, List.mem_append, hdone, hres_v]
            obtain ⟨ct, x, hdx⟩ := hshape v d0 hres_v
            have hcond : ¬ (({ a with urlToImage := some d0 } : Article).urlToImage =
                some u) := by
              intro he
              simp only [Option.some.injEq] at he
              exact (ne_dataUriFull u ct x hu_nodata) (he ▸ hdx)
            rw [h1, h2, if_neg hcond]
          | none =>
            have h1 : rewriteSpec res done a = a := by
              simp [rewriteSpec, hurl, hvnil, hdone, hres_v]
            have h2 : rewriteSpec res (done ++ [u]) a = a := by
              simp [rewriteSpec, hurl, hvnil, List.mem_append, hdone, hres_v]
            rw [h1, h2, if_neg hne_vu]
        · have h1 : rewriteSpec res done a = a := by
            simp [rewriteSpec, hurl, hvnil, hdone]
          have h2 : rewriteSpec res (done ++ [u]) a = a := by
            simp [rewriteSpec, hurl, hvnil, List.mem_append, hdone, hveq]
          rw [h1, h2, if_neg hne_vu]

theorem rewriteWith_step (res : String → Option String) (allUrls done : List String)
    (u : String) (origArts : List Article) (hu_all : u ∈ allUrls)
    (hshape : ∀ v w, res v = some w → ∃ ct x, w = "data:" ++ ct ++ ";base64," ++ x)
    (hnodata : ∀ v ∈ allUrls, startsWithData v = false)
    (hne_nil : ∀ v ∈ allUrls, v ≠ "")
    (horig : ∀ a ∈ origArts, ∀ v, a.urlToImage = some v → v = "" ∨ v ∈ allUrls) :
    rewriteWith u (CacheVal.str (match res u with | some d => d | none => u))
        (origArts.map (rewriteSpec res done)) =
      origArts.map (rewriteSpec res (done ++ [u])) := by
  cases hres_u : res u with
  | none =>
    simp only [rewriteWith]
    rw [if_neg (by rw [hnodata u hu_all]; simp)]
    apply List.map_congr_left
    intro a ha
    cases hurl : a.urlToImage with
    | none => simp [rewriteSpec, hurl]
    | some v =>
      by_cases hvnil : v = ""
      · simp [rewriteSpec, hurl, hvnil]
      · by_cases hveq : v = u
        · simp [rewriteSpec, hurl, hvnil, hveq, hres_u]
        · simp [rewriteSpec, hurl, hvnil, List.mem_append, hveq]
  | some d =>
    obtain ⟨ct, x, hdx⟩ := hshape u d hres_u
    simp only [rewriteWith]
    rw [if_pos (by rw [hdx]; exact startsWithData_full ct x)]
    rw [List.map_map]
    apply List.map_congr_left
    intro a ha
    simp only [Function.comp_apply]
    exact rewriteSpec_step_pointwise res allUrls done u d a hu_all hres_u hshape
      hnodata hne_nil (horig a ha)

theorem rewriteBatch_spec (res : String → Option String) (allUrls : List String)
    (hshape : ∀ v w, res v = some w → ∃ ct x, w = "data:" ++ ct ++ ";base64," ++ x)
    (hnodata : ∀ v ∈ allUrls, startsWithData v = false)
    (hne_nil : ∀ v ∈ allUrls, v ≠ "") :
    ∀ (batch done : List String) (origArts : List Article),
      (∀ u ∈ batch, u ∈ allUrls) →
      (∀ a ∈ origArts, ∀ v, a.urlToImage = some v → v = "" ∨ v ∈ allUrls) →
      rewriteBatch batch
        (batch.map (fun u => CacheVal.str
          (match res u with | some d => d | none => u)))
        (origArts.map (rewriteSpec res done)) =
      origArts.map (rewriteSpec res (done ++ batch)) := by
  intro batch
  induction batch with
  | nil =>
    intro done orig _ _
    simp [rewriteBatch]
  | cons u rest ihb =>
    intro done orig hmem horig
    simp only [rewriteBatch, List.map_cons, List.zip_cons_cons, List.foldl_cons]
    have hstep := rewriteWith_step res allUrls done u orig (hmem u (by simp))
      hshape hnodata hne_nil horig
    rw [hstep]
    have hrest := ihb (done ++ [u]) orig (fun v hv => hmem v (by simp [hv])) horig
    simp only [rewriteBatch] at hrest
    rw [hrest]
    have hdd : (done ++ [u]) ++ rest = done ++ u :: rest := by simp
    rw [hdd]

theorem processBatches_spec (h gd b64 : String → String) (config : CacheConfig)
    (writeOk : Bool) (net : String → NetResult) (B allUrls : List String)
    (origArts : List Article) (hinj : Function.Injective h)
    (hnodata : ∀ v ∈ allUrls, startsWithData v = false)
    (hne_nil : ∀ v ∈ allUrls, v ≠ "") :
    ∀ (chunkList : List (List String)) (done : List String)
      (st : ServiceState CacheVal) (rsp : Response),
      (∀ b ∈ chunkList, ∀ u ∈ b, u ∈ allUrls) →
      StInv h config (imgFetchResult gd b64 B net) allUrls done B st →
      rsp.articles = origArts.map (rewriteSpec (imgFetchResult gd b64 B net) done) →
      (∀ a ∈ origArts, ∀ v, a.urlToImage = some v → v = "" ∨ v ∈ allUrls) →
      (processBatches h gd b64 config writeOk net st rsp chunkList).1.articles =
        origArts.map (rewriteSpec (imgFetchResult gd b64 B net)
          (done ++ chunkList.join)) := by
  intro chunkList
  induction chunkList with
  | nil =>
    intro done st rsp _ _ harts _
    simpa [processBatches] using harts
  | cons b rest ih =>
    intro done st rsp hbs hst harts horig
    obtain ⟨hr1, hstB⟩ := runBatch_spec h gd b64 config writeOk net B allUrls hinj
      b done st (hbs b (by simp)) hst
    have hresp' : rewriteBatch b (runBatch h gd b64 config writeOk net st b).1
        rsp.articles =
        origArts.map (rewriteSpec (imgFetchResult gd b64 B net) (done ++ b)) := by
      rw [hr1, harts]
      exact rewriteBatch_spec (imgFetchResult gd b64 B net) allUrls
        (imgFetchResult_shape gd b64 B net) hnodata hne_nil b done origArts
        (hbs b (by simp)) horig
    have hrec := ih (done ++ b)
      ((runBatch h gd b64 config writeOk net st b).2.1)
      (Response.mk (rewriteBatch b (runBatch h gd b64 config writeOk net st b).1
        rsp.articles))
      (fun b' hb' => hbs b' (by simp [hb'])) hstB (by simpa using hresp') horig
    simp only [processBatches]
    rw [hrec]
    have hjoin : (done ++ b) ++ rest.join = done ++ (b :: rest).join := by
      rw [show (b :: rest).join = b ++ rest.join from rfl, List.append_assoc]
    rw [hjoin]

theorem rewriteSpec_nil (res : String → Option String) (origArts : List Article) :
    origArts.map (rewriteSpec res []) = origArts := by
  apply List.map_congr_left ?_ |>.trans (List.map_id origArts)
  intro a _
  cases hurl : a.urlToImage with
  | none => simp [rewriteSpec, hurl]
  | some v =>
    by_cases hvnil : v = ""
    · simp [rewriteSpec, hurl, hvnil]
    · simp [rewriteSpec, hurl, hvnil]

/-- C6: cache_response_async is a total function of its oracles (the
enclosing try/except means the Python call returns normally even when some
fetches fail), and in the returned response every article whose non-empty
image url fetches successfully (domain not blocked, HTTP 200, within both
size bounds - the imgFetchResult characterization) is rewritten to its
cached data-URI representation, while every article whose fetch fails -
including every url on an already-blocked domain - keeps its original url.
Side conditions of the embedding: the digest function is injective (md5
minus collisions), the image urls are not themselves data URIs, they are
not yet cached in either layer, and no image digest collides with the
response digest. -/
theorem C6_partial_failure_rewrite (h gd b64 : String → String)
    (config : CacheConfig) (writeOk : Bool) (net : String → NetResult)
    (st0 : ServiceState CacheVal) (query : String) (response : Response)
    (hinj : Function.Injective h)
    (hnodata : ∀ u ∈ imageUrls response, startsWithData u = false)
    (hfreshmem : ∀ u ∈ imageUrls response, lookupKV (h u) st0.memCache = none)
    (hfreshfs : ∀ u ∈ imageUrls response,
      lookupKV (entryPath config "images" (h u)) st0.fs = none)
    (hnq : ∀ u ∈ imageUrls response, h u ≠ h (h query)) :
    (cache_response_async h gd b64 config writeOk net st0 query response).1.articles =
      response.articles.map (fun a =>
        match a.urlToImage with
        | some u =>
          if u = "" then a
          else
            match imgFetchResult gd b64 st0.blockedDomains net u with
            | some d => { a with urlToImage := some d }
            | none => a
        | none => a) := by
  have hne_nil := imageUrls_ne_empty response
  have horig : ∀ a ∈ response.articles, ∀ v, a.urlToImage = some v →
      v = "" ∨ v ∈ imageUrls response :=
    fun a ha v hv => article_url_cases response a ha v hv
  have hst1 : StInv h config (imgFetchResult gd b64 st0.blockedDomains net)
      (imageUrls response) [] st0.blockedDomains
      ((CacheService.set h config writeOk st0 (h query)
        (CacheVal.resp response) "search").2.1) := by
    constructor
    · exact set_preserves_blockedDomains h config writeOk st0 (h query) _ "search"
    · intro u hu
      have hmem1 : lookupKV (h u)
          (((CacheService.set h config writeOk st0 (h query)
            (CacheVal.resp response) "search").2.1).memCache) = none := by
        rw [set_memCache_lookup_other h config writeOk st0 (h query) _ "search"
          (h u) (hnq u hu)]
        exact hfreshmem u hu
      have hfs1 : lookupKV (entryPath config "images" (h u))
          (((CacheService.set h config writeOk st0 (h query)
            (CacheVal.resp response) "search").2.1).fs) = none := by
        rw [set_fs_lookup_other h config writeOk st0 (h query) _ "search" _
          (Ne.symm (entryPath_search_ne_images config (h (h query)) (h u)))]
        exact hfreshfs u hu
      simp only [UrlInv]
      cases imgFetchResult gd b64 st0.blockedDomains net u with
      | some d =>
        dsimp only
        rw [if_neg (List.not_mem_nil u)]
        exact ⟨hmem1, hfs1⟩
      | none => exact ⟨hmem1, hfs1⟩
  have hbs : ∀ b ∈ chunksGo batch_size (imageUrls response).length
      (imageUrls response), ∀ u ∈ b, u ∈ imageUrls response :=
    fun b hb u hu =>
      chunksGo_mem batch_size (imageUrls response).length (imageUrls response)
        b hb u hu
  have hmain := processBatches_spec h gd b64 config writeOk net st0.blockedDomains
    (imageUrls response) response.articles hinj hnodata hne_nil
    (chunksGo batch_size (imageUrls response).length (imageUrls response)) []
    ((CacheService.set h config writeOk st0 (h query) (CacheVal.resp response)
      "search").2.1)
    response hbs hst1 (rewriteSpec_nil _ _).symm horig
  have hunf : (cache_response_async h gd b64 config writeOk net st0 query
      response).1 =
      (processBatches h gd b64 config writeOk net
        ((CacheService.set h config writeOk st0 (h query)
          (CacheVal.resp response) "search").2.1)
        response
        (chunksGo batch_size (imageUrls response).length (imageUrls response))).1 :=
    rfl
  rw [hunf, hmain,
    chunksGo_join batch_size (by decide) (imageUrls response).length
      (imageUrls response) (le_refl _)]
  simp only [List.nil_append]
  apply List.map_congr_left
  intro a ha
  cases hurl : a.urlToImage with
  | none => simp [rewriteSpec, hurl]
  | some v =>
    by_cases hvnil : v = ""
    · simp [rewriteSpec, hurl, hvnil]
    · have hv_mem : v ∈ imageUrls response := mem_imageUrls response a v ha hurl hvnil
      simp [rewriteSpec, hurl, hvnil, hv_mem]

/-- C6 witness: the scenario of the claim - three image urls, one of which
sits on an already-blocked domain - evaluated concretely: the two fetchable
urls are rewritten to data URIs, the blocked one keeps its original url,
and the call returns normally. -/
theorem C6_witness :
    (cache_response_async (fun s => s) (fun s => s) (fun s => s) cfg true
      (fun _ => NetResult.response 200 "image/jpeg" none "IMG")
      (ServiceState.mk [] [] ["c"] []) "q"
      (Response.mk [Article.mk (some "a"), Article.mk (some "b"),
        Article.mk (some "c")])).1.articles =
      (Response.mk [Article.mk (some "a"), Article.mk (some "b"),
        Article.mk (some "c")]).articles.map (fun a =>
        match a.urlToImage with
        | some u =>
          if u = "" then a
          else
            match imgFetchResult (fun s => s) (fun s => s)
              (ServiceState.mk ([] : List (String × CacheVal)) [] ["c"]
                []).blockedDomains
              (fun _ => NetResult.response 200 "image/jpeg" none "IMG") u with
            | some d => { a with urlToImage := some d }
            | none => a
        | none => a) :=
  C6_partial_failure_rewrite (fun s => s) (fun s => s) (fun s => s) cfg true
    (fun _ => NetResult.response 200 "image/jpeg" none "IMG")
    (ServiceState.mk [] [] ["c"] []) "q"
    (Response.mk [Article.mk (some "a"), Article.mk (some "b"),
      Article.mk (some "c")])
    (fun _ _ hh => hh) (by decide) (by decide) (by decide) (by decide)

end DataVault
